import Mathlib

/-!
# api-mirror: configuration resolution (`config.go`)

A shallow embedding of `getConfigContent` and `initConfig` from `config.go`,
and the properties of the specification that concern them.

Modelling conventions.

* A Go `string` that holds text (a source list, a match type, a header name) is a
  Lean `String`, a sequence of Unicode code points; the Go functions of package
  `strings` used by the program are re-stated on code points, which agrees with
  their byte-wise Go definition on valid UTF-8. `len` is the length in bytes.
* A Go `[]byte` (the content of a file or of an HTTP body) is a list of octets.
* A Go slice field is a `Slice`: the nil slice or a non-nil slice with its
  elements (`reflect.DeepEqual` tells the two apart).
* A Go `int` is an `Int`.
* Everything the program calls but does not define (the file system, the HTTP
  helper `getRequestByAll`, `yaml.Unmarshal`, the Unicode lower-case table) is a
  field of `Env`. Calls to the logger are collected in a list of `LogEvent`s, and
  calls to the file system and to the HTTP helper in a list of `Call`s.
-/

namespace ApiMirror

/-! ## Go values -/

/-- A Go `[]byte`: a sequence of octets. -/
abbrev Bytes := List (Fin 256)

/-- The bytes of a Go string literal made of ASCII characters only (each
character is then one byte, its code). -/
def asciiBytes (s : String) : Bytes :=
  s.data.map (fun c => Fin.ofNat c.toNat)

/-- A Go slice value as far as `len`, `range`, indexing, `append` and
`reflect.DeepEqual` observe it: the nil slice, or a non-nil slice and its elements. -/
inductive Slice (α : Type) where
  | nil : Slice α
  | mk (elems : List α) : Slice α
  deriving DecidableEq, Repr

/-- The elements of a slice, in order (none for the nil slice). -/
def Slice.elems {α : Type} : Slice α → List α
  | .nil => []
  | .mk xs => xs

/-- Go `append(s, x)`: always a non-nil slice, the elements of `s` followed by `x`. -/
def Slice.append {α : Type} (s : Slice α) (x : α) : Slice α :=
  .mk (s.elems ++ [x])

/-- Go `len(s)` of a string: its length in bytes (UTF-8). -/
def len (s : String) : Nat := s.utf8ByteSize

namespace unicode

/-- Go `unicode.IsSpace`: the Latin-1 white space characters, and beyond Latin-1
the characters of the Unicode `White_Space` property. -/
def IsSpace (r : Char) : Bool :=
  let n := r.toNat
  if n ≤ 0xFF then
    n == 0x09 || n == 0x0A || n == 0x0B || n == 0x0C || n == 0x0D || n == 0x20
      || n == 0x85 || n == 0xA0
  else
    n == 0x1680 || (0x2000 ≤ n && n ≤ 0x200A) || n == 0x2028 || n == 0x2029
      || n == 0x202F || n == 0x205F || n == 0x3000

/-- Go `unicode.ToLower`: ASCII letters are mapped directly, every other code
point through the Unicode case table `tbl` (`unicode.CaseRanges`). -/
def ToLower (tbl : Char → Char) (r : Char) : Char :=
  if r.toNat ≤ 0x7F then
    if 'A' ≤ r ∧ r ≤ 'Z' then Char.ofNat (r.toNat + ('a'.toNat - 'A'.toNat)) else r
  else tbl r

end unicode

/-- Whether `sub` occurs in `s` as a block of consecutive elements (the empty
block occurs everywhere). -/
def listContains {α : Type} [DecidableEq α] : List α → List α → Bool
  | [], sub => sub.isEmpty
  | x :: xs, sub => sub.isPrefixOf (x :: xs) || listContains xs sub

/-- The pieces of `s` between the occurrences of `sep`; one piece more than
there are occurrences. -/
def splitOn (sep : Char) : List Char → List (List Char)
  | [] => [[]]
  | c :: cs =>
    if c = sep then [] :: splitOn sep cs
    else
      match splitOn sep cs with
      | [] => [[c]]
      | piece :: pieces => (c :: piece) :: pieces

namespace strings

/-- Go `strings.Split(s, ",")`. -/
def Split (s : String) : List String :=
  (splitOn ',' s.data).map String.mk

/-- Go `strings.TrimSpace`: leading and trailing white space removed. -/
def TrimSpace (s : String) : String :=
  ⟨((s.data.dropWhile unicode.IsSpace).reverse.dropWhile unicode.IsSpace).reverse⟩

/-- Go `strings.ToLower`: every code point mapped by `unicode.ToLower`. -/
def ToLower (tbl : Char → Char) (s : String) : String :=
  ⟨s.data.map (unicode.ToLower tbl)⟩

/-- Go `strings.HasPrefix(s, p)`. -/
def HasPrefix (s p : String) : Bool :=
  p.data.isPrefixOf s.data

/-- Go `strings.Contains(s, substr)`. -/
def Contains (s substr : String) : Bool :=
  listContains s.data substr.data

end strings

/-- Go conversion of an `int` to `float64` (written `rate.Limit(n)` in the
program), as the exact value of the resulting float: `n` rounded to 53
significant bits, ties to the even significand. An `int` has at most 64 bits, so
at most 11 low bits are rounded away; the value is an integer again. -/
def float64OfInt (n : Int) : Int :=
  let a := n.natAbs
  let e := ((List.range 12).find? (fun k => a / 2 ^ k < 2 ^ 53)).getD 11
  let q := a / 2 ^ e
  let r := a % 2 ^ e
  let q1 := if 2 * r > 2 ^ e ∨ (2 * r = 2 ^ e ∧ q % 2 = 1) then q + 1 else q
  Int.sign n * ((q1 * 2 ^ e : Nat) : Int)

/-! ## The configuration model -/

def PathMatchTypeExact : String := "exact"
def PathMatchTypePrefix : String := "prefix"
def PathMatchTypeRegexp : String := "regexp"

structure ProxyPathConfig where
  Path : String
  MatchType : String
  Remove : String
  deriving DecidableEq, Repr

structure ProxyHostConfig where
  Host : String
  Weight : Int
  deriving DecidableEq, Repr

/-- A `*rate.Limiter` as `rate.NewLimiter(r, b)` builds it: `limit` is the value
of the float64 `r` (at the only construction site the conversion of an `int`,
hence an integer), `burst` is `b`. -/
structure Limiter where
  limit : Int
  burst : Int
  deriving DecidableEq, Repr

structure ProxyConfigFilter where
  TimeOut : Int
  LimitHosts : Int
  LimitQps : Int
  LimitRespHeaders : Slice String
  Limiter : Option Limiter
  deriving DecidableEq, Repr

structure ProxyConfig where
  Desc : String
  Paths : Slice ProxyPathConfig
  Hosts : Slice ProxyHostConfig
  Filter : ProxyConfigFilter
  deriving DecidableEq, Repr

structure ServerProjectConfig where
  Port : Int
  ProxyConfigs : Slice ProxyConfig
  deriving DecidableEq, Repr

def ProxyPathConfig.isExactMatchType (p : ProxyPathConfig) : Bool :=
  p.MatchType == PathMatchTypeExact

def ProxyPathConfig.isPrefixMatchType (p : ProxyPathConfig) : Bool :=
  p.MatchType == PathMatchTypePrefix

def ProxyPathConfig.isRegexpMatchType (p : ProxyPathConfig) : Bool :=
  p.MatchType == PathMatchTypeRegexp

/-- Go `rate.NewLimiter(rate.Limit(n), b)`. -/
def NewLimiter (n : Int) (b : Int) : Limiter :=
  { limit := float64OfInt n, burst := b }

/-! ### `reflect.DeepEqual` and `isEmpty`

Go `reflect.DeepEqual` by the type of its arguments: strings and ints are
compared with `==`, structs field by field, slices are deeply equal when both
are nil or both are non-nil with the same length and deeply equal elements,
pointers when both are nil or both point to deeply equal values. -/

/-- `reflect.DeepEqual` on two slices whose elements are compared by `eq`. -/
def deepEqualSlice {α : Type} (eq : α → α → Bool) : Slice α → Slice α → Bool
  | .nil, .nil => true
  | .mk xs, .mk ys => decide (xs.length = ys.length) && (List.zipWith eq xs ys).all id
  | _, _ => false

/-- `reflect.DeepEqual` on two `*rate.Limiter`. -/
def deepEqualLimiter : Option Limiter → Option Limiter → Bool
  | none, none => true
  | some a, some b => decide (a.limit = b.limit) && decide (a.burst = b.burst)
  | _, _ => false

/-- `reflect.DeepEqual` on two `ProxyPathConfig`. -/
def ProxyPathConfig.deepEqual (a b : ProxyPathConfig) : Bool :=
  decide (a.Path = b.Path) && decide (a.MatchType = b.MatchType)
    && decide (a.Remove = b.Remove)

/-- `reflect.DeepEqual` on two `ProxyHostConfig`. -/
def ProxyHostConfig.deepEqual (a b : ProxyHostConfig) : Bool :=
  decide (a.Host = b.Host) && decide (a.Weight = b.Weight)

/-- `reflect.DeepEqual` on two `ProxyConfigFilter`. -/
def ProxyConfigFilter.deepEqual (a b : ProxyConfigFilter) : Bool :=
  decide (a.TimeOut = b.TimeOut) && decide (a.LimitHosts = b.LimitHosts)
    && decide (a.LimitQps = b.LimitQps)
    && deepEqualSlice (fun x y => decide (x = y)) a.LimitRespHeaders b.LimitRespHeaders
    && deepEqualLimiter a.Limiter b.Limiter

/-- `reflect.DeepEqual` on two `ProxyConfig`. -/
def ProxyConfig.deepEqual (a b : ProxyConfig) : Bool :=
  decide (a.Desc = b.Desc)
    && deepEqualSlice ProxyPathConfig.deepEqual a.Paths b.Paths
    && deepEqualSlice ProxyHostConfig.deepEqual a.Hosts b.Hosts
    && ProxyConfigFilter.deepEqual a.Filter b.Filter

/-- The composite literal `ProxyConfig{}`: every field at its zero value (the
empty string, the nil slice, 0, the nil pointer). -/
def ProxyConfig.zero : ProxyConfig where
  Desc := ""
  Paths := .nil
  Hosts := .nil
  Filter := { TimeOut := 0, LimitHosts := 0, LimitQps := 0,
              LimitRespHeaders := .nil, Limiter := none }

/-- The method `isEmpty`: `reflect.DeepEqual(x, ProxyConfig{})`. -/
def ProxyConfig.isEmpty (x : ProxyConfig) : Bool :=
  ProxyConfig.deepEqual x ProxyConfig.zero

/-! ### The host comparator -/

/-- The type `ProxyHostConfigs`, a slice of hosts. -/
abbrev ProxyHostConfigs := Slice ProxyHostConfig

/-- The method `Len`. -/
def ProxyHostConfigs.Len (s : ProxyHostConfigs) : Nat := s.elems.length

/-- The method `Less`: `s[i].Weight > s[j].Weight`; `none` when an index is out
of range (the program panics). -/
def ProxyHostConfigs.Less (s : ProxyHostConfigs) (i j : Nat) : Option Bool :=
  match s.elems[i]?, s.elems[j]? with
  | some a, some b => some (decide (a.Weight > b.Weight))
  | _, _ => none

/-- The method `Swap`: `s[i], s[j] = s[j], s[i]`, in place; `none` when an index
is out of range. -/
def ProxyHostConfigs.Swap (s : ProxyHostConfigs) (i j : Nat) : Option ProxyHostConfigs :=
  match s.elems[i]?, s.elems[j]? with
  | some a, some b => some (.mk ((s.elems.set i b).set j a))
  | _, _ => none

/-! ## The collaborators of the program, and what it reports -/

/-- What the program does not define itself. -/
structure Env where
  /-- The HTTP helper `getRequestByAll(url, method, nil, nil, timeOut)` of the
  repository, defined outside `config.go`: the body it returns (its second
  result is discarded by the caller). -/
  getRequestByAll : String → String → Nat → Bytes
  /-- Go `ioutil.ReadFile`: the bytes read, and the error if there is one. -/
  ReadFile : String → Bytes × Option String
  /-- Go `yaml.Unmarshal(content, &cfg)`: the configuration after decoding
  `content` into `cfg`, and the error if there is one. -/
  Unmarshal : Bytes → ServerProjectConfig → ServerProjectConfig × Option String
  /-- The Unicode case table behind `unicode.ToLower` for non-ASCII code points. -/
  lowerTable : Char → Char

/-- A call to the file system or to the HTTP helper. -/
inductive Call where
  | httpGet (url : String) (method : String) (timeOut : Nat)
  | readFile (path : String)
  deriving DecidableEq, Repr

/-- One call to the logger, named after its place in `config.go`. -/
inductive LogEvent where
  /-- `log.Error(err)` of `initConfig`, the error of `getConfigContent`. -/
  | configError (err : String)
  /-- `log.Error(..., err1)` of `initConfig`, the error of `yaml.Unmarshal`. -/
  | unmarshalError (err : String)
  /-- `log.Infof("init HandleFunc desc:[%s], filter:[%+v]", ...)`. -/
  | initHandleFunc (desc : String) (filter : ProxyConfigFilter)
  /-- `log.Errorf` of the match-type check: desc, path, matchType. -/
  | matchTypeError (desc path matchType : String)
  /-- `log.Infof("add HandleFunc success, ...")`: desc, path, matchType. -/
  | addHandleFunc (desc path matchType : String)
  /-- `log.Infof` after a remote candidate was accepted. -/
  | remoteAccepted (configUrl : String)
  /-- `log.Errorf` after a remote candidate was rejected. -/
  | remoteRejected (configUrl : String)
  /-- `log.Infof` after a local candidate was accepted. -/
  | localAccepted (configPath : String)
  /-- `log.Errorf` after a local candidate was rejected. -/
  | localRejected (configPath : String)
  deriving DecidableEq, Repr

/-- Whether the event was logged at error level (`log.Error`, `log.Errorf`). -/
def LogEvent.isError : LogEvent → Bool
  | .configError _ => true
  | .unmarshalError _ => true
  | .initHandleFunc _ _ => false
  | .matchTypeError _ _ _ => true
  | .addHandleFunc _ _ _ => false
  | .remoteAccepted _ => false
  | .remoteRejected _ => true
  | .localAccepted _ => false
  | .localRejected _ => true

/-! ## `getConfigContent` -/

/-- The text of `errors.New(...)` in `getConfigContent` (the same at both places). -/
def configErrText : String := "??????????????????????????????"

/-- The local variables of `getConfigContent`, with the calls made and the
events logged so far. -/
structure Resolution where
  content : Bytes
  filePath : String
  configErr : Option String
  calls : List Call
  log : List LogEvent
  deriving DecidableEq, Repr

/-- The state in which `getConfigContent` enters its loop: the zero values of
its local variables, nothing called or logged yet. -/
def initialResolution : Resolution :=
  { content := [], filePath := "", configErr := none, calls := [], log := [] }

/-- The acceptance test of a remote candidate:
`len(content) > 10 && string(content) != "httpError" && strings.Contains(string(content), "port")`. -/
def remoteOk (content : Bytes) : Bool :=
  decide (content.length > 10) && decide (content ≠ asciiBytes "httpError")
    && listContains content (asciiBytes "port")

/-- The acceptance test of a local candidate:
`configErr == nil && len(content) > 0 && strings.Contains(string(content), "port")`. -/
def localOk (content : Bytes) (configErr : Option String) : Bool :=
  decide (configErr = none) && decide (content.length > 0)
    && listContains content (asciiBytes "port")

/-- The loop `for _, configFile := range configFiles` of `getConfigContent`,
started in state `st`; a `break` ends it with the state reached. -/
def resolveLoop (env : Env) : List String → Resolution → Resolution
  | [], st => st
  | configFile :: rest, st =>
    if len (strings.TrimSpace configFile) = 0 then
      resolveLoop env rest st
    else if strings.HasPrefix configFile "http" then
      let content := env.getRequestByAll configFile "GET" 5000
      let calls := st.calls ++ [Call.httpGet configFile "GET" 5000]
      if remoteOk content then
        { content := content, filePath := configFile, configErr := none,
          calls := calls, log := st.log ++ [LogEvent.remoteAccepted configFile] }
      else
        resolveLoop env rest
          { content := content, filePath := configFile, configErr := some configErrText,
            calls := calls, log := st.log ++ [LogEvent.remoteRejected configFile] }
    else
      let read := env.ReadFile configFile
      let calls := st.calls ++ [Call.readFile configFile]
      if localOk read.1 read.2 then
        { content := read.1, filePath := configFile, configErr := read.2,
          calls := calls, log := st.log ++ [LogEvent.localAccepted configFile] }
      else
        resolveLoop env rest
          { content := read.1, filePath := configFile, configErr := some configErrText,
            calls := calls, log := st.log ++ [LogEvent.localRejected configFile] }

/-- The state of `getConfigContent` at its `return`. -/
def getConfigContentRun (env : Env) (configFileStr : String) : Resolution :=
  resolveLoop env (strings.Split configFileStr) initialResolution

/-- The function `getConfigContent`: content, location and error. -/
def getConfigContent (env : Env) (configFileStr : String) : Bytes × String × Option String :=
  let st := getConfigContentRun env configFileStr
  (st.content, st.filePath, st.configErr)

/-! ### Candidates

The vocabulary in which the properties of `getConfigContent` are stated. An
entry of the source list is a candidate when it is not skipped by the loop; a
candidate is attempted by one call, whose result decides whether it is accepted. -/

/-- The entry is not skipped: `len(strings.TrimSpace(configFile)) != 0`. -/
def isCandidate (configFile : String) : Bool :=
  decide (len (strings.TrimSpace configFile) ≠ 0)

/-- The entry is fetched over HTTP: `strings.HasPrefix(configFile, "http")`. -/
def isRemote (configFile : String) : Bool :=
  strings.HasPrefix configFile "http"

/-- The call that attempts a candidate. -/
def callOf (configFile : String) : Call :=
  if isRemote configFile then Call.httpGet configFile "GET" 5000
  else Call.readFile configFile

/-- The content that the attempt of a candidate assigns to `content`. -/
def fetched (env : Env) (configFile : String) : Bytes :=
  if isRemote configFile then env.getRequestByAll configFile "GET" 5000
  else (env.ReadFile configFile).1

/-- The acceptance test of a candidate, on what its attempt obtains. -/
def accepts (env : Env) (configFile : String) : Bool :=
  if isRemote configFile then remoteOk (env.getRequestByAll configFile "GET" 5000)
  else localOk (env.ReadFile configFile).1 (env.ReadFile configFile).2

/-- The event logged when a candidate is accepted. -/
def acceptedEvent (configFile : String) : LogEvent :=
  if isRemote configFile then LogEvent.remoteAccepted configFile
  else LogEvent.localAccepted configFile

/-- The event logged when a candidate is rejected. -/
def rejectedEvent (configFile : String) : LogEvent :=
  if isRemote configFile then LogEvent.remoteRejected configFile
  else LogEvent.localRejected configFile

/-- The state after a candidate was attempted and rejected in state `st`; an
entry that is no candidate leaves the state as it is. -/
def afterRejected (env : Env) (st : Resolution) (configFile : String) : Resolution :=
  if isCandidate configFile then
    { content := fetched env configFile, filePath := configFile,
      configErr := some configErrText,
      calls := st.calls ++ [callOf configFile],
      log := st.log ++ [rejectedEvent configFile] }
  else st

/-! ## `initConfig` -/

/-- One round of the loop over the paths of a route: the path rule stored, and
the events logged. -/
def initPath (env : Env) (desc : String) (p : ProxyPathConfig) :
    ProxyPathConfig × List LogEvent :=
  let m1 := strings.TrimSpace (strings.ToLower env.lowerTable p.MatchType)
  let m2 := if len m1 = 0 then PathMatchTypeExact else m1
  let errs :=
    if !strings.Contains m2 PathMatchTypeExact && !strings.Contains m2 PathMatchTypePrefix
        && !strings.Contains m2 PathMatchTypeRegexp then
      [LogEvent.matchTypeError desc p.Path m2]
    else []
  ({ p with MatchType := m2 }, errs ++ [LogEvent.addHandleFunc desc p.Path m2])

/-- The loop `for i := range ...Paths` of `initConfig`. -/
def initPaths (env : Env) (desc : String) :
    List ProxyPathConfig → List ProxyPathConfig × List LogEvent
  | [] => ([], [])
  | p :: ps =>
    let r := initPath env desc p
    let rs := initPaths env desc ps
    (r.1 :: rs.1, r.2 ++ rs.2)

/-- One round of the loop over the routes: the route stored, and the events
logged. -/
def initProxyConfig (env : Env) (x : ProxyConfig) : ProxyConfig × List LogEvent :=
  let headers := x.Filter.LimitRespHeaders.append "Content-Encoding"
  let limiter :=
    if x.Filter.LimitQps > 0 then some (NewLimiter x.Filter.LimitQps x.Filter.LimitQps)
    else none
  let paths := initPaths env x.Desc x.Paths.elems
  ({ x with
      Paths := (match x.Paths with
        | .nil => .nil
        | .mk _ => .mk paths.1),
      Filter := { x.Filter with LimitRespHeaders := headers, Limiter := limiter } },
   LogEvent.initHandleFunc x.Desc x.Filter :: paths.2)

/-- The loop `for index := range ProjectConfig.ProxyConfigs` of `initConfig`. -/
def initProxyConfigs (env : Env) : List ProxyConfig → List ProxyConfig × List LogEvent
  | [] => ([], [])
  | x :: xs =>
    let r := initProxyConfig env x
    let rs := initProxyConfigs env xs
    (r.1 :: rs.1, r.2 ++ rs.2)

/-- The part of `initConfig` after `yaml.Unmarshal`: the parsed configuration
`cfg` is normalized in place. -/
def initParsed (env : Env) (cfg : ServerProjectConfig) : ServerProjectConfig × List LogEvent :=
  let rs := initProxyConfigs env cfg.ProxyConfigs.elems
  ({ cfg with
      ProxyConfigs := (match cfg.ProxyConfigs with
        | .nil => .nil
        | .mk _ => .mk rs.1) },
   rs.2)

/-- The configuration that `yaml.Unmarshal` leaves in `ProjectConfig`, which
held `cfg0` before, when `initConfig` is called with `configFile`. -/
def parsedConfig (env : Env) (configFile : String) (cfg0 : ServerProjectConfig) :
    ServerProjectConfig :=
  (env.Unmarshal (getConfigContent env configFile).1 cfg0).1

/-- The function `initConfig`: the value of the global `ProjectConfig` (which
held `cfg0` before) when it returns, and the events logged. -/
def initConfig (env : Env) (configFile : String) (cfg0 : ServerProjectConfig) :
    ServerProjectConfig × List LogEvent :=
  let st := getConfigContentRun env configFile
  let log1 := match st.configErr with
    | some err => [LogEvent.configError err]
    | none => []
  let parsed := env.Unmarshal st.content cfg0
  let log2 := match parsed.2 with
    | some err1 => [LogEvent.unmarshalError err1]
    | none => []
  let r := initParsed env parsed.1
  (r.1, st.log ++ log1 ++ log2 ++ r.2)

/-! ## Sample data -/

/-- A small environment: the file `valid.yaml` holds `port: 8080`, the file
`empty.yaml` is empty, the file `other.txt` holds text without the word looked
for, no other file can be read; `http://conf/ok` answers with a configuration,
`http://conf/short` with the ten bytes `port: 8080`, every other request fails. -/
def sampleEnv : Env where
  getRequestByAll := fun url _ _ =>
    if url = "http://conf/ok" then asciiBytes "port: 9090\n"
    else if url = "http://conf/short" then asciiBytes "port: 8080"
    else asciiBytes "httpError"
  ReadFile := fun path =>
    if path = "valid.yaml" then (asciiBytes "port: 8080", none)
    else if path = "empty.yaml" then ([], none)
    else if path = "other.txt" then (asciiBytes "listen: 8080", none)
    else ([], some "no such file or directory")
  Unmarshal := fun _ cfg => (cfg, none)
  lowerTable := fun r => r

/-- A route with a description, a filter quota and hosts of the given weights. -/
def sampleRoute (qps : Int) (weights : List Int) : ProxyConfig where
  Desc := "api"
  Paths := .mk [{ Path := "/api", MatchType := "  PREFIX  ", Remove := "" }]
  Hosts := .mk (weights.map (fun w => { Host := "h", Weight := w }))
  Filter := { TimeOut := 0, LimitHosts := 0, LimitQps := qps,
              LimitRespHeaders := .mk ["Content-Encoding"], Limiter := none }

/-- A parsed configuration with the one route `sampleRoute qps weights`. -/
def sampleConfig (qps : Int) (weights : List Int) : ServerProjectConfig where
  Port := 8080
  ProxyConfigs := .mk [sampleRoute qps weights]

/-- The environment `sampleEnv` with a decoder that yields `parsed` for every
document. -/
def sampleEnvParsing (parsed : ServerProjectConfig) : Env :=
  { sampleEnv with Unmarshal := fun _ _ => (parsed, none) }

/-- The zero value of `ServerProjectConfig`, held by the global `ProjectConfig`
when the program starts. -/
def zeroConfig : ServerProjectConfig where
  Port := 0
  ProxyConfigs := .nil

/-! ## The vocabulary of the specification -/

/-- The weights of the hosts do not increase along the sequence. -/
def weightsDescending (hosts : List ProxyHostConfig) : Prop :=
  hosts.Pairwise (fun a b => a.Weight ≥ b.Weight)

instance (hosts : List ProxyHostConfig) : Decidable (weightsDescending hosts) := by
  unfold weightsDescending
  infer_instance

/-- The limiter of a filter as the specification describes it, with the refill
rate read as the float64 that holds it: present exactly when the quota is
positive, and then with burst `LimitQps` and rate `float64(LimitQps)`, which is
`LimitQps` itself for a quota of at most `2 ^ 53`. -/
def limiterMatchesQuota (f : ProxyConfigFilter) : Prop :=
  (f.Limiter.isSome = true ↔ f.LimitQps > 0) ∧
  ∀ l, f.Limiter = some l →
    l.burst = f.LimitQps ∧ l.limit = float64OfInt f.LimitQps ∧
    (f.LimitQps ≤ 2 ^ 53 → l.limit = f.LimitQps)

/-- The match type that the specification prescribes for the parsed match type
`m`: the token `exact` when the trimmed, lower-cased `m` is empty, and the
trimmed, lower-cased `m` otherwise. -/
def specMatchType (tbl : Char → Char) (m : String) : String :=
  if strings.TrimSpace (strings.ToLower tbl m) = "" then "exact"
  else strings.TrimSpace (strings.ToLower tbl m)

/-- The entry is empty or consists of white space only. -/
def isBlank (entry : String) : Prop :=
  ∀ ch ∈ entry.data, unicode.IsSpace ch = true

instance (entry : String) : Decidable (isBlank entry) := by
  unfold isBlank
  infer_instance

/-- The entries `after` are the entries `before` with blank entries inserted at
any places. -/
inductive BlanksInserted : List String → List String → Prop where
  | done : BlanksInserted [] []
  | keep (x : String) {before after : List String} :
      BlanksInserted before after → BlanksInserted (x :: before) (x :: after)
  | insert (b : String) {before after : List String} :
      isBlank b → BlanksInserted before after → BlanksInserted before (b :: after)

/-- The location that a call names: the URL fetched or the path read. -/
def Call.location : Call → String
  | .httpGet url _ _ => url
  | .readFile path => path

/-- `unicode.ToLower` with the case table `tbl` maps what it yields to itself, as
the lower-case mapping of Unicode does. -/
def lowerIdempotent (tbl : Char → Char) : Prop :=
  ∀ r : Char, unicode.ToLower tbl (unicode.ToLower tbl r) = unicode.ToLower tbl r

/-- The string has no white space at its start and none at its end. -/
def isTrimmed (m : String) : Prop :=
  (∀ ch, m.data.head? = some ch → unicode.IsSpace ch = false) ∧
  (∀ ch, m.data.getLast? = some ch → unicode.IsSpace ch = false)

/-! ## Properties of `getConfigContent` -/

theorem isCandidate_iff (c : String) :
    isCandidate c = true ↔ len (strings.TrimSpace c) ≠ 0 := by
  simp [isCandidate]

/-- An entry that is no candidate is skipped. -/
theorem resolveLoop_skip (env : Env) (c : String) (rest : List String) (st : Resolution)
    (hc : isCandidate c = false) :
    resolveLoop env (c :: rest) st = resolveLoop env rest st := by
  have h0 : len (strings.TrimSpace c) = 0 := by
    simpa [isCandidate] using hc
  simp [resolveLoop, h0]

/-- An accepted candidate ends the loop. -/
theorem resolveLoop_accept (env : Env) (c : String) (rest : List String) (st : Resolution)
    (hc : isCandidate c = true) (ha : accepts env c = true) :
    resolveLoop env (c :: rest) st =
      { content := fetched env c, filePath := c, configErr := none,
        calls := st.calls ++ [callOf c], log := st.log ++ [acceptedEvent c] } := by
  have h0 : len (strings.TrimSpace c) ≠ 0 := (isCandidate_iff c).1 hc
  by_cases hr : isRemote c = true
  · have hp : strings.HasPrefix c "http" = true := hr
    have ha1 : remoteOk (env.getRequestByAll c "GET" 5000) = true := by
      simpa [accepts, hr] using ha
    simp [resolveLoop, h0, hp, ha1, fetched, callOf, acceptedEvent, hr]
  · have hr0 : isRemote c = false := by simpa using hr
    have hp : strings.HasPrefix c "http" = false := hr0
    have ha1 : localOk (env.ReadFile c).1 (env.ReadFile c).2 = true := by
      simpa [accepts, hr0] using ha
    have hnone : (env.ReadFile c).2 = none := by
      simp [localOk] at ha1
      exact ha1.1.1
    have ha2 : localOk (env.ReadFile c).1 none = true := hnone ▸ ha1
    simp [resolveLoop, h0, hp, ha2, fetched, callOf, acceptedEvent, hr0, hnone]

/-- A rejected candidate is recorded and the loop goes on. -/
theorem resolveLoop_reject (env : Env) (c : String) (rest : List String) (st : Resolution)
    (hc : isCandidate c = true) (ha : accepts env c = false) :
    resolveLoop env (c :: rest) st = resolveLoop env rest (afterRejected env st c) := by
  have h0 : len (strings.TrimSpace c) ≠ 0 := (isCandidate_iff c).1 hc
  by_cases hr : isRemote c = true
  · have hp : strings.HasPrefix c "http" = true := hr
    have ha1 : remoteOk (env.getRequestByAll c "GET" 5000) = false := by
      simpa [accepts, hr] using ha
    simp [resolveLoop, h0, hp, ha1, afterRejected, hc, fetched, callOf, rejectedEvent, hr]
  · have hr0 : isRemote c = false := by simpa using hr
    have hp : strings.HasPrefix c "http" = false := hr0
    have ha1 : localOk (env.ReadFile c).1 (env.ReadFile c).2 = false := by
      simpa [accepts, hr0] using ha
    simp [resolveLoop, h0, hp, ha1, afterRejected, hc, fetched, callOf, rejectedEvent, hr0]

/-- Entries of which none is an accepted candidate are passed one by one. -/
theorem resolveLoop_append_rejected (env : Env) (pre rest : List String) :
    ∀ st : Resolution, (∀ d ∈ pre, isCandidate d = true → accepts env d = false) →
      resolveLoop env (pre ++ rest) st
        = resolveLoop env rest (pre.foldl (afterRejected env) st) := by
  induction pre with
  | nil => intro st _; rfl
  | cons d ds ih =>
    intro st h
    have hds : ∀ x ∈ ds, isCandidate x = true → accepts env x = false :=
      fun x hx => h x (List.mem_cons_of_mem d hx)
    by_cases hd : isCandidate d = true
    · have hrej := h d (List.mem_cons_self d ds) hd
      rw [List.cons_append, resolveLoop_reject env d _ st hd hrej, ih _ hds]
      rfl
    · have hd0 : isCandidate d = false := by simpa using hd
      rw [List.cons_append, resolveLoop_skip env d _ st hd0, ih _ hds]
      simp [List.foldl, afterRejected, hd0]

/-- The calls made while entries are passed: one per candidate, in order. -/
theorem foldl_afterRejected_calls (env : Env) (pre : List String) :
    ∀ st : Resolution, (pre.foldl (afterRejected env) st).calls
      = st.calls ++ (pre.filter isCandidate).map callOf := by
  induction pre with
  | nil => intro st; simp
  | cons d ds ih =>
    intro st
    by_cases hd : isCandidate d = true
    · simp [List.foldl, ih, afterRejected, hd]
    · have hd0 : isCandidate d = false := by simpa using hd
      simp [List.foldl, ih, afterRejected, hd0]

/-- The first element with a property splits a list that has one. -/
theorem exists_first {α : Type} (p : α → Bool) :
    ∀ l : List α, (∃ c ∈ l, p c = true) →
      ∃ pre c post, l = pre ++ c :: post ∧ p c = true ∧ ∀ d ∈ pre, p d = false := by
  intro l
  induction l with
  | nil => rintro ⟨c, hc, _⟩; cases hc
  | cons x xs ih =>
    intro h
    by_cases hx : p x = true
    · exact ⟨[], x, xs, rfl, hx, by simp⟩
    · have hx0 : p x = false := by simpa using hx
      obtain ⟨c, hc, hpc⟩ := h
      have hmem : c ∈ xs := by
        rcases List.mem_cons.1 hc with rfl | hm
        · exact absurd hpc hx
        · exact hm
      obtain ⟨pre, c1, post, hl, hp1, hpre⟩ := ih ⟨c, hmem, hpc⟩
      refine ⟨x :: pre, c1, post, by simp [hl], hp1, ?_⟩
      intro d hd
      rcases List.mem_cons.1 hd with rfl | hm
      · exact hx0
      · exact hpre d hm

/-- C1. When some candidate of the source list passes its acceptance test,
`getConfigContent` returns the content and the location of the first such
candidate in list order with a nil error, and the calls made are those for the
candidates up to and including it: no later candidate is attempted. Earlier
candidates were rejected (each set an error); the result is the same. -/
theorem getConfigContent_first_accepted (env : Env) (configFileStr : String)
    (h : ∃ c ∈ strings.Split configFileStr, isCandidate c = true ∧ accepts env c = true) :
    ∃ pre c post, strings.Split configFileStr = pre ++ c :: post ∧
      isCandidate c = true ∧ accepts env c = true ∧
      (∀ d ∈ pre, isCandidate d = true → accepts env d = false) ∧
      getConfigContent env configFileStr = (fetched env c, c, none) ∧
      (getConfigContentRun env configFileStr).calls
        = (pre.filter isCandidate).map callOf ++ [callOf c] := by
  obtain ⟨pre, c, post, hsplit, hpc, hpre⟩ :=
    exists_first (fun c => isCandidate c && accepts env c) (strings.Split configFileStr)
      (by
        obtain ⟨c, hc, h1, h2⟩ := h
        exact ⟨c, hc, by simp [h1, h2]⟩)
  have hc : isCandidate c = true ∧ accepts env c = true := by simpa using hpc
  have hrej : ∀ d ∈ pre, isCandidate d = true → accepts env d = false := by
    intro d hd hcand
    have := hpre d hd
    simpa [hcand] using this
  have hrun : getConfigContentRun env configFileStr
      = { content := fetched env c, filePath := c, configErr := none,
          calls := (pre.foldl (afterRejected env) initialResolution).calls ++ [callOf c],
          log := (pre.foldl (afterRejected env) initialResolution).log ++ [acceptedEvent c] } := by
    unfold getConfigContentRun
    rw [hsplit, resolveLoop_append_rejected env pre (c :: post) _ hrej,
      resolveLoop_accept env c post _ hc.1 hc.2]
  refine ⟨pre, c, post, hsplit, hc.1, hc.2, hrej, ?_, ?_⟩
  · simp [getConfigContent, hrun]
  · rw [hrun]
    simp [foldl_afterRejected_calls, initialResolution]

/-- C1 at the list `nonexistent.yaml,http://conf/short,valid.yaml,http://conf/ok`
in `sampleEnv`: the third entry is the first accepted one. -/
theorem getConfigContent_first_accepted_witness :
    (∃ c ∈ strings.Split "nonexistent.yaml,http://conf/short,valid.yaml,http://conf/ok",
      isCandidate c = true ∧ accepts sampleEnv c = true) ∧
    ∃ pre c post,
      strings.Split "nonexistent.yaml,http://conf/short,valid.yaml,http://conf/ok"
        = pre ++ c :: post ∧
      isCandidate c = true ∧ accepts sampleEnv c = true ∧
      (∀ d ∈ pre, isCandidate d = true → accepts sampleEnv d = false) ∧
      getConfigContent sampleEnv "nonexistent.yaml,http://conf/short,valid.yaml,http://conf/ok"
        = (fetched sampleEnv c, c, none) ∧
      (getConfigContentRun sampleEnv
          "nonexistent.yaml,http://conf/short,valid.yaml,http://conf/ok").calls
        = (pre.filter isCandidate).map callOf ++ [callOf c] :=
  have h : ∃ c ∈ strings.Split "nonexistent.yaml,http://conf/short,valid.yaml,http://conf/ok",
      isCandidate c = true ∧ accepts sampleEnv c = true :=
    ⟨"valid.yaml", by decide, by decide, by decide⟩
  ⟨h, getConfigContent_first_accepted sampleEnv _ h⟩

/-! ## Properties of `initConfig` -/

theorem initPaths_fst (env : Env) (desc : String) (ps : List ProxyPathConfig) :
    (initPaths env desc ps).1 = ps.map (fun p => (initPath env desc p).1) := by
  induction ps with
  | nil => rfl
  | cons p ps ih => simp [initPaths, ih]

theorem initProxyConfigs_fst (env : Env) (xs : List ProxyConfig) :
    (initProxyConfigs env xs).1 = xs.map (fun x => (initProxyConfig env x).1) := by
  induction xs with
  | nil => rfl
  | cons x xs ih => simp [initProxyConfigs, ih]

/-- The routes after normalization are the parsed routes, each normalized. -/
theorem initParsed_routes (env : Env) (cfg : ServerProjectConfig) :
    (initParsed env cfg).1.ProxyConfigs.elems
      = cfg.ProxyConfigs.elems.map (fun x => (initProxyConfig env x).1) := by
  cases cfg with
  | mk port routes =>
    cases routes with
    | nil => rfl
    | mk xs => simp [initParsed, Slice.elems, initProxyConfigs_fst]

/-- The paths of a normalized route are the parsed paths, each normalized. -/
theorem initProxyConfig_paths (env : Env) (x : ProxyConfig) :
    (initProxyConfig env x).1.Paths.elems
      = x.Paths.elems.map (fun p => (initPath env x.Desc p).1) := by
  cases x with
  | mk desc paths hosts filter =>
    cases paths with
    | nil => rfl
    | mk ps => simp [initProxyConfig, Slice.elems, initPaths_fst]

/-- The configuration left by `initConfig` is the parsed one, normalized. -/
theorem initConfig_fst (env : Env) (configFile : String) (cfg0 : ServerProjectConfig) :
    (initConfig env configFile cfg0).1
      = (initParsed env (parsedConfig env configFile cfg0)).1 := rfl

/-- The routes left by `initConfig`. -/
theorem initConfig_routes (env : Env) (configFile : String) (cfg0 : ServerProjectConfig) :
    (initConfig env configFile cfg0).1.ProxyConfigs.elems
      = (parsedConfig env configFile cfg0).ProxyConfigs.elems.map
          (fun x => (initProxyConfig env x).1) := by
  rw [initConfig_fst, initParsed_routes]

theorem range12 : List.range 12 = [0, 1, 2, 3, 4, 5, 6, 7, 8, 9, 10, 11] := by decide

theorem find_first (p : Nat → Bool) (l : List Nat) (h : p 0 = true) :
    ((0 :: l).find? p).getD 11 = 0 := by
  simp [List.find?_cons, h]

/-- An `int` of magnitude at most `2 ^ 53` is converted to float64 exactly. -/
theorem float64OfInt_exact (n : Int) (h : n.natAbs ≤ 2 ^ 53) : float64OfInt n = n := by
  rcases Nat.lt_or_eq_of_le h with hlt | heq
  · have he : ((List.range 12).find?
        (fun k => decide (n.natAbs / 2 ^ k < 2 ^ 53))).getD 11 = 0 := by
      rw [range12]
      exact find_first _ _ (by simpa using hlt)
    unfold float64OfInt
    simp only [he]
    have hr : n.natAbs % 2 ^ 0 = 0 := by simp [Nat.mod_one]
    simp only [hr]
    simp [Int.sign_mul_natAbs]
    exact Int.sign_mul_abs n
  · rcases Int.natAbs_eq n with hn | hn
    · rw [heq] at hn
      rw [hn]
      decide
    · rw [heq] at hn
      rw [hn]
      decide

/-- C2, as the code has it: `initConfig` does not touch the hosts. Route by
route, the host sequence after `initConfig` is the parsed one, in the parsed
order; so it is a permutation of the parsed hosts, and its weights are
non-increasing exactly when the parsed weights were. -/
theorem initConfig_hosts_unchanged (env : Env) (configFile : String)
    (cfg0 : ServerProjectConfig) :
    (initConfig env configFile cfg0).1.ProxyConfigs.elems.map (fun y => y.Hosts)
      = (parsedConfig env configFile cfg0).ProxyConfigs.elems.map (fun x => x.Hosts) ∧
    List.Forall₂
      (fun x y => y.Hosts.elems.Perm x.Hosts.elems ∧
        (weightsDescending y.Hosts.elems ↔ weightsDescending x.Hosts.elems))
      (parsedConfig env configFile cfg0).ProxyConfigs.elems
      (initConfig env configFile cfg0).1.ProxyConfigs.elems := by
  rw [initConfig_routes]
  constructor
  · rw [List.map_map]
    rfl
  · rw [List.forall₂_map_right_iff]
    apply List.forall₂_same.2
    intro x _
    exact ⟨List.Perm.refl _, Iff.rfl⟩

/-- C2 fails as stated: hosts parsed with the weights 1, 5, 3 are in the order
1, 5, 3 after `initConfig`, not 5, 3, 1, and their weights are not
non-increasing. -/
theorem initConfig_hosts_not_sorted :
    (initConfig (sampleEnvParsing (sampleConfig 10 [1, 5, 3])) "valid.yaml"
        zeroConfig).1.ProxyConfigs.elems.map
      (fun y => y.Hosts.elems.map (fun h => h.Weight)) = [[1, 5, 3]] ∧
    ¬ ∀ y ∈ (initConfig (sampleEnvParsing (sampleConfig 10 [1, 5, 3])) "valid.yaml"
        zeroConfig).1.ProxyConfigs.elems, weightsDescending y.Hosts.elems := by
  decide

/-- The limiter of a normalized route is decided by the quota alone. -/
theorem initProxyConfig_limiter (env : Env) (x : ProxyConfig) :
    limiterMatchesQuota (initProxyConfig env x).1.Filter := by
  by_cases hq : x.Filter.LimitQps > 0
  · refine ⟨by simp [initProxyConfig, hq], ?_⟩
    intro l hl
    have hl1 : l = NewLimiter x.Filter.LimitQps x.Filter.LimitQps := by
      simpa [initProxyConfig, hq] using hl.symm
    subst hl1
    refine ⟨rfl, rfl, ?_⟩
    intro hle
    have hle1 : x.Filter.LimitQps ≤ 2 ^ 53 := hle
    exact float64OfInt_exact _ (by omega)
  · refine ⟨by simp [initProxyConfig, hq], ?_⟩
    intro l hl
    simp [initProxyConfig, hq] at hl

/-- C3, as the code has it: after `initConfig` every route has a limiter if and
only if its `LimitQps` (the parsed one, which is kept) is positive; the limiter
then has burst `LimitQps` and rate `float64(LimitQps)`, which equals `LimitQps`
whenever `LimitQps` is at most `2 ^ 53`. -/
theorem initConfig_limiter (env : Env) (configFile : String) (cfg0 : ServerProjectConfig) :
    (initConfig env configFile cfg0).1.ProxyConfigs.elems.map (fun y => y.Filter.LimitQps)
      = (parsedConfig env configFile cfg0).ProxyConfigs.elems.map
          (fun x => x.Filter.LimitQps) ∧
    ∀ y ∈ (initConfig env configFile cfg0).1.ProxyConfigs.elems,
      limiterMatchesQuota y.Filter := by
  rw [initConfig_routes]
  constructor
  · rw [List.map_map]
    rfl
  · intro y hy
    obtain ⟨x, _, rfl⟩ := List.mem_map.1 hy
    exact initProxyConfig_limiter env x

/-- C3 at a route parsed with `limitQps: 10`: the limiter has rate and burst 10. -/
theorem initConfig_limiter_witness :
    (initProxyConfig sampleEnv (sampleRoute 10 [1, 5, 3])).1
      ∈ (initConfig (sampleEnvParsing (sampleConfig 10 [1, 5, 3])) "valid.yaml"
          zeroConfig).1.ProxyConfigs.elems ∧
    (initProxyConfig sampleEnv (sampleRoute 10 [1, 5, 3])).1.Filter.Limiter
      = some { limit := 10, burst := 10 } ∧
    limiterMatchesQuota (initProxyConfig sampleEnv (sampleRoute 10 [1, 5, 3])).1.Filter :=
  ⟨by decide, by decide,
    (initConfig_limiter (sampleEnvParsing (sampleConfig 10 [1, 5, 3])) "valid.yaml"
      zeroConfig).2 _ (by decide)⟩

/-- C3 fails as stated: with `limitQps: 9007199254740993` (that is `2 ^ 53 + 1`)
the limiter is present with burst `9007199254740993` and with the refill rate
`9007199254740992`, which is not `LimitQps`. -/
theorem initConfig_limiter_rate_rounded :
    (initConfig (sampleEnvParsing (sampleConfig 9007199254740993 [])) "valid.yaml"
        zeroConfig).1.ProxyConfigs.elems.map (fun y => (y.Filter.LimitQps, y.Filter.Limiter))
      = [(9007199254740993,
          some { limit := 9007199254740992, burst := 9007199254740993 })] := by
  decide

theorem len_eq_zero_iff (s : String) : len s = 0 ↔ s = "" := by
  cases s with
  | mk data =>
    cases data with
    | nil => simp [len, String.utf8ByteSize, String.utf8ByteSize.go]
    | cons c cs =>
      have hpos : 0 < c.utf8Size := Char.utf8Size_pos c
      have hne : String.mk (c :: cs) ≠ "" := by
        intro h
        have := congrArg String.data h
        simp at this
      simp only [len, String.utf8ByteSize, String.utf8ByteSize.go, hne, iff_false]
      omega

/-- The match type stored by one round of the loop over the paths. -/
theorem initPath_matchType (env : Env) (desc : String) (p : ProxyPathConfig) :
    (initPath env desc p).1.MatchType = specMatchType env.lowerTable p.MatchType := by
  by_cases h : strings.TrimSpace (strings.ToLower env.lowerTable p.MatchType) = ""
  · have h0 : len (strings.TrimSpace (strings.ToLower env.lowerTable p.MatchType)) = 0 :=
      (len_eq_zero_iff _).2 h
    have hz : len "" = 0 := (len_eq_zero_iff "").2 rfl
    simp [initPath, specMatchType, h, hz, PathMatchTypeExact]
  · have h0 : len (strings.TrimSpace (strings.ToLower env.lowerTable p.MatchType)) ≠ 0 :=
      fun hz => h ((len_eq_zero_iff _).1 hz)
    simp [initPath, specMatchType, h, h0]

/-- C4. After `initConfig` the match types of the path rules are, route by route
and path by path, the token `exact` where the trimmed, lower-cased parsed match
type is empty, and the trimmed, lower-cased parsed match type elsewhere. The
empty match type becomes `exact`, `  PREFIX  ` becomes `prefix`, and `bogus`
stays `bogus`. -/
theorem initConfig_matchType (env : Env) (configFile : String) (cfg0 : ServerProjectConfig) :
    (initConfig env configFile cfg0).1.ProxyConfigs.elems.map
        (fun y => y.Paths.elems.map (fun p => p.MatchType))
      = (parsedConfig env configFile cfg0).ProxyConfigs.elems.map
          (fun x => x.Paths.elems.map (fun p => specMatchType env.lowerTable p.MatchType)) ∧
    specMatchType env.lowerTable "" = PathMatchTypeExact ∧
    specMatchType env.lowerTable "  PREFIX  " = PathMatchTypePrefix ∧
    specMatchType env.lowerTable "bogus" = "bogus" := by
  refine ⟨?_, rfl, rfl, rfl⟩
  rw [initConfig_routes, List.map_map]
  apply List.map_congr_left
  intro x _
  simp only [Function.comp, initProxyConfig_paths, List.map_map]
  apply List.map_congr_left
  intro p _
  exact initPath_matchType env x.Desc p

/-- C5 fails on the code: the check before `log.Errorf` asks whether the match
type contains one of the three tokens, not whether it equals one. For the parsed
match type `exactly` no error is logged (the only event is the informational
one), the stored match type is `exactly`, and none of `isExactMatchType`,
`isPrefixMatchType`, `isRegexpMatchType` holds. For `bogus` the error is logged. -/
theorem initPath_exactly_not_reported (env : Env) (desc : String) :
    initPath env desc { Path := "/a", MatchType := "exactly", Remove := "" }
      = ({ Path := "/a", MatchType := "exactly", Remove := "" },
         [LogEvent.addHandleFunc desc "/a" "exactly"]) ∧
    (LogEvent.addHandleFunc desc "/a" "exactly").isError = false ∧
    ProxyPathConfig.isExactMatchType
      (initPath env desc { Path := "/a", MatchType := "exactly", Remove := "" }).1 = false ∧
    ProxyPathConfig.isPrefixMatchType
      (initPath env desc { Path := "/a", MatchType := "exactly", Remove := "" }).1 = false ∧
    ProxyPathConfig.isRegexpMatchType
      (initPath env desc { Path := "/a", MatchType := "exactly", Remove := "" }).1 = false ∧
    initPath env desc { Path := "/a", MatchType := "bogus", Remove := "" }
      = ({ Path := "/a", MatchType := "bogus", Remove := "" },
         [LogEvent.matchTypeError desc "/a" "bogus",
          LogEvent.addHandleFunc desc "/a" "bogus"]) :=
  ⟨rfl, rfl, rfl, rfl, rfl, rfl⟩

/-- The header-strip list of a normalized route. -/
theorem initProxyConfig_headers (env : Env) (x : ProxyConfig) :
    (initProxyConfig env x).1.Filter.LimitRespHeaders.elems
      = x.Filter.LimitRespHeaders.elems ++ ["Content-Encoding"] := rfl

/-- C6. After `initConfig` the header-strip list of every route is the parsed
list followed by one `Content-Encoding`: the parsed entries in their order, one
entry more, whatever the parsed list held and however many path rules the route
has. Hence every route has `Content-Encoding` in its list. -/
theorem initConfig_headers (env : Env) (configFile : String) (cfg0 : ServerProjectConfig) :
    (initConfig env configFile cfg0).1.ProxyConfigs.elems.map
        (fun y => y.Filter.LimitRespHeaders.elems)
      = (parsedConfig env configFile cfg0).ProxyConfigs.elems.map
          (fun x => x.Filter.LimitRespHeaders.elems ++ ["Content-Encoding"]) ∧
    (initConfig env configFile cfg0).1.ProxyConfigs.elems.map
        (fun y => y.Filter.LimitRespHeaders.elems.length)
      = (parsedConfig env configFile cfg0).ProxyConfigs.elems.map
          (fun x => x.Filter.LimitRespHeaders.elems.length + 1) ∧
    ∀ y ∈ (initConfig env configFile cfg0).1.ProxyConfigs.elems,
      "Content-Encoding" ∈ y.Filter.LimitRespHeaders.elems := by
  rw [initConfig_routes]
  refine ⟨?_, ?_, ?_⟩
  · rw [List.map_map]
    rfl
  · rw [List.map_map]
    apply List.map_congr_left
    intro x _
    simp [initProxyConfig_headers]
  · intro y hy
    obtain ⟨x, _, rfl⟩ := List.mem_map.1 hy
    simp [initProxyConfig_headers]

/-- C6 at a route whose parsed list already holds `Content-Encoding`: the list
holds it twice afterwards. -/
theorem initConfig_headers_witness :
    (initProxyConfig sampleEnv (sampleRoute 10 [1, 5, 3])).1
      ∈ (initConfig (sampleEnvParsing (sampleConfig 10 [1, 5, 3])) "valid.yaml"
          zeroConfig).1.ProxyConfigs.elems ∧
    (initProxyConfig sampleEnv (sampleRoute 10 [1, 5, 3])).1.Filter.LimitRespHeaders
      = .mk ["Content-Encoding", "Content-Encoding"] ∧
    "Content-Encoding"
      ∈ (initProxyConfig sampleEnv (sampleRoute 10 [1, 5, 3])).1.Filter.LimitRespHeaders.elems :=
  ⟨by decide, by decide,
    (initConfig_headers (sampleEnvParsing (sampleConfig 10 [1, 5, 3])) "valid.yaml"
      zeroConfig).2.2 _ (by decide)⟩

/-! ## `getConfigContent` when no candidate is accepted -/

/-- The state after entries were passed, when the last candidate among them is `c`. -/
theorem foldl_afterRejected_last (env : Env) (c : String) (l : List String) :
    ∀ st : Resolution, (l.filter isCandidate).getLast? = some c →
      (l.foldl (afterRejected env) st).content = fetched env c ∧
      (l.foldl (afterRejected env) st).filePath = c ∧
      (l.foldl (afterRejected env) st).configErr = some configErrText := by
  induction l using List.reverseRecOn with
  | nil => intro st h; simp at h
  | append_singleton l d ih =>
    intro st h
    rw [List.foldl_append]
    by_cases hd : isCandidate d = true
    · have hcd : c = d := by
        simpa [List.filter_append, hd, List.getLast?_append] using h.symm
      subst hcd
      simp [List.foldl, afterRejected, hd]
    · have hd0 : isCandidate d = false := by simpa using hd
      have h1 : (l.filter isCandidate).getLast? = some c := by
        simpa [List.filter_append, hd0] using h
      simpa [List.foldl, afterRejected, hd0] using ih st h1

/-- Entries without a candidate leave the state as it is. -/
theorem foldl_afterRejected_none (env : Env) (l : List String) :
    ∀ st : Resolution, l.filter isCandidate = [] → l.foldl (afterRejected env) st = st := by
  induction l with
  | nil => intro st _; rfl
  | cons d ds ih =>
    intro st h
    have hd0 : isCandidate d = false := by
      by_contra hd
      simp [List.filter_cons, hd] at h
    have hds : ds.filter isCandidate = [] := by
      simpa [List.filter_cons, hd0] using h
    simp [List.foldl, afterRejected, hd0, ih _ hds]

/-- C7, as the code has it: when the source list has a candidate and no
candidate is accepted, `getConfigContent` returns the content obtained from the
last candidate, that candidate as location and a non-nil error; every candidate
was attempted, in order. -/
theorem getConfigContent_none_accepted (env : Env) (configFileStr : String) (c : String)
    (hrej : ∀ d ∈ strings.Split configFileStr, isCandidate d = true → accepts env d = false)
    (hlast : ((strings.Split configFileStr).filter isCandidate).getLast? = some c) :
    getConfigContent env configFileStr = (fetched env c, c, some configErrText) ∧
    (getConfigContent env configFileStr).2.2 ≠ none ∧
    (getConfigContentRun env configFileStr).calls
      = ((strings.Split configFileStr).filter isCandidate).map callOf := by
  have hrun : getConfigContentRun env configFileStr
      = (strings.Split configFileStr).foldl (afterRejected env) initialResolution := by
    have h := resolveLoop_append_rejected env (strings.Split configFileStr) []
      initialResolution hrej
    rw [List.append_nil] at h
    unfold getConfigContentRun
    rw [h]
    rfl
  obtain ⟨h1, h2, h3⟩ := foldl_afterRejected_last env c _ initialResolution hlast
  have hres : getConfigContent env configFileStr = (fetched env c, c, some configErrText) := by
    simp [getConfigContent, hrun, h1, h2, h3]
  refine ⟨hres, ?_, ?_⟩
  · rw [hres]
    simp
  · rw [hrun, foldl_afterRejected_calls]
    simp [initialResolution]

/-- C7 at the list `nonexistent.yaml,http://conf/short,other.txt, ` in
`sampleEnv`: all three candidates are rejected, the content returned is that of
`other.txt`. -/
theorem getConfigContent_none_accepted_witness :
    (∀ d ∈ strings.Split "nonexistent.yaml,http://conf/short,other.txt, ",
      isCandidate d = true → accepts sampleEnv d = false) ∧
    ((strings.Split "nonexistent.yaml,http://conf/short,other.txt, ").filter
      isCandidate).getLast? = some "other.txt" ∧
    getConfigContent sampleEnv "nonexistent.yaml,http://conf/short,other.txt, "
      = (asciiBytes "listen: 8080", "other.txt", some configErrText) :=
  ⟨by decide, by decide,
    (getConfigContent_none_accepted sampleEnv
      "nonexistent.yaml,http://conf/short,other.txt, " "other.txt"
      (by decide) (by decide)).1⟩

/-- C7 fails as stated: for the empty source list, and for a list of blank
entries, no candidate is accepted and `getConfigContent` returns a nil error
(with empty content and empty location, after no call at all). -/
theorem getConfigContent_blank_list_nil_error :
    (∀ d ∈ strings.Split "", isCandidate d = true → accepts sampleEnv d = false) ∧
    getConfigContent sampleEnv "" = ([], "", none) ∧
    (getConfigContentRun sampleEnv "").calls = [] ∧
    (∀ d ∈ strings.Split " , ,", isCandidate d = true → accepts sampleEnv d = false) ∧
    getConfigContent sampleEnv " , ," = ([], "", none) := by
  decide

/-- C8 fails on the code: an entry is trimmed only to see whether it is blank,
and is then used as written. For the list `nonexistent.yaml, valid.yaml`, with
`valid.yaml` readable and holding `port: 8080`, the files read are
`nonexistent.yaml` and ` valid.yaml` (with the blank in front); `valid.yaml` is
not read and the result is an error with empty content. Without the blank after
the comma the content of `valid.yaml` is returned. -/
theorem getConfigContent_entry_not_trimmed :
    sampleEnv.ReadFile "valid.yaml" = (asciiBytes "port: 8080", none) ∧
    listContains (asciiBytes "port: 8080") (asciiBytes "port") = true ∧
    (sampleEnv.ReadFile "nonexistent.yaml").2 ≠ none ∧
    getConfigContent sampleEnv "nonexistent.yaml, valid.yaml"
      = ([], " valid.yaml", some configErrText) ∧
    (getConfigContentRun sampleEnv "nonexistent.yaml, valid.yaml").calls
      = [Call.readFile "nonexistent.yaml", Call.readFile " valid.yaml"] ∧
    getConfigContent sampleEnv "nonexistent.yaml,valid.yaml"
      = (asciiBytes "port: 8080", "valid.yaml", none) := by
  decide

/-! ## The acceptance tests -/

/-- `listContains` decides whether `sub` is a block of consecutive elements of `s`. -/
theorem listContains_iff {α : Type} [DecidableEq α] (sub : List α) :
    ∀ s : List α, listContains s sub = true ↔ ∃ a b, s = a ++ sub ++ b := by
  intro s
  induction s with
  | nil =>
    constructor
    · intro h
      have hs : sub = [] := by simpa [listContains] using h
      exact ⟨[], [], by simp [hs]⟩
    · rintro ⟨a, b, h⟩
      have hs : sub = [] := by
        have h1 := congrArg List.length h
        simp at h1
        exact List.length_eq_zero.1 (by omega)
      simp [listContains, hs]
  | cons x xs ih =>
    rw [listContains, Bool.or_eq_true, List.isPrefixOf_iff_prefix, ih]
    constructor
    · rintro (⟨t, ht⟩ | ⟨a, b, hab⟩)
      · exact ⟨[], t, by simp [ht]⟩
      · exact ⟨x :: a, b, by simp [hab]⟩
    · rintro ⟨a, b, hab⟩
      cases a with
      | nil => exact Or.inl ⟨b, by simpa using hab.symm⟩
      | cons y a1 =>
        right
        simp only [List.cons_append, List.cons.injEq] at hab
        exact ⟨a1, b, hab.2⟩

/-- The test of a remote candidate, in words. -/
theorem remoteOk_iff (content : Bytes) :
    remoteOk content = true ↔
      content.length > 10 ∧ content ≠ asciiBytes "httpError" ∧
      ∃ a b, content = a ++ asciiBytes "port" ++ b := by
  simp [remoteOk, listContains_iff, and_assoc]

/-- The test of a local candidate, in words. -/
theorem localOk_iff (content : Bytes) (configErr : Option String) :
    localOk content configErr = true ↔
      configErr = none ∧ content.length > 0 ∧
      ∃ a b, content = a ++ asciiBytes "port" ++ b := by
  simp [localOk, listContains_iff, and_assoc]

/-- What `dropWhile` leaves is not empty when some element fails the test. -/
theorem dropWhile_ne_nil {α : Type} (p : α → Bool) :
    ∀ l : List α, (∃ x ∈ l, p x = false) → l.dropWhile p ≠ [] := by
  intro l
  induction l with
  | nil => rintro ⟨x, hx, _⟩; cases hx
  | cons y ys ih =>
    rintro ⟨x, hx, hpx⟩
    by_cases hy : p y = true
    · rw [List.dropWhile_cons_of_pos hy]
      rcases List.mem_cons.1 hx with rfl | hm
      · rw [hy] at hpx
        cases hpx
      · exact ih ⟨x, hm, hpx⟩
    · rw [List.dropWhile_cons_of_neg hy]
      exact List.cons_ne_nil _ _

/-- An entry that starts with `http` is not blank. -/
theorem isCandidate_of_http (c : String) (h : strings.HasPrefix c "http" = true) :
    isCandidate c = true := by
  obtain ⟨t, ht⟩ := List.isPrefixOf_iff_prefix.1 h
  have hdata : c.data = 'h' :: ('t' :: 't' :: 'p' :: t) := ht.symm
  have hh : unicode.IsSpace 'h' = false := by decide
  have h1 : c.data.dropWhile unicode.IsSpace = c.data := by
    rw [hdata]
    exact List.dropWhile_cons_of_neg (by simp [hh])
  have h2 : (c.data.reverse.dropWhile unicode.IsSpace) ≠ [] :=
    dropWhile_ne_nil _ _ ⟨'h', by simp [hdata], hh⟩
  have h3 : strings.TrimSpace c ≠ "" := by
    intro hempty
    have hd := congrArg String.data hempty
    simp only [strings.TrimSpace, h1] at hd
    exact h2 (List.reverse_eq_nil_iff.1 hd)
  rw [isCandidate_iff]
  exact fun hz => h3 ((len_eq_zero_iff _).1 hz)

/-- C9. An entry that starts with `http` is a candidate, fetched by one GET. If the body
is longer than 10 bytes, is not `httpError` and contains `port`, the loop ends
there: the body and the candidate are returned with a nil error. If not, an
error is recorded and the loop goes on with the next entry; this is so for
every body of fewer than 11 bytes, whatever it contains. -/
theorem resolveLoop_remote (env : Env) (c : String) (rest : List String) (st : Resolution)
    (hr : strings.HasPrefix c "http" = true) :
    ((env.getRequestByAll c "GET" 5000).length > 10 ∧
        env.getRequestByAll c "GET" 5000 ≠ asciiBytes "httpError" ∧
        (∃ a b, env.getRequestByAll c "GET" 5000 = a ++ asciiBytes "port" ++ b) →
      resolveLoop env (c :: rest) st =
        { content := env.getRequestByAll c "GET" 5000, filePath := c, configErr := none,
          calls := st.calls ++ [Call.httpGet c "GET" 5000],
          log := st.log ++ [LogEvent.remoteAccepted c] }) ∧
    (¬ ((env.getRequestByAll c "GET" 5000).length > 10 ∧
        env.getRequestByAll c "GET" 5000 ≠ asciiBytes "httpError" ∧
        (∃ a b, env.getRequestByAll c "GET" 5000 = a ++ asciiBytes "port" ++ b)) →
      resolveLoop env (c :: rest) st =
        resolveLoop env rest
          { content := env.getRequestByAll c "GET" 5000, filePath := c,
            configErr := some configErrText,
            calls := st.calls ++ [Call.httpGet c "GET" 5000],
            log := st.log ++ [LogEvent.remoteRejected c] }) ∧
    ((env.getRequestByAll c "GET" 5000).length < 11 →
      resolveLoop env (c :: rest) st =
        resolveLoop env rest
          { content := env.getRequestByAll c "GET" 5000, filePath := c,
            configErr := some configErrText,
            calls := st.calls ++ [Call.httpGet c "GET" 5000],
            log := st.log ++ [LogEvent.remoteRejected c] }) := by
  have hrem : isRemote c = true := hr
  have hc : isCandidate c = true := isCandidate_of_http c hr
  have hrej : accepts env c = false →
      resolveLoop env (c :: rest) st =
        resolveLoop env rest
          { content := env.getRequestByAll c "GET" 5000, filePath := c,
            configErr := some configErrText,
            calls := st.calls ++ [Call.httpGet c "GET" 5000],
            log := st.log ++ [LogEvent.remoteRejected c] } := by
    intro ha
    rw [resolveLoop_reject env c rest st hc ha]
    simp [afterRejected, hc, fetched, callOf, rejectedEvent, hrem]
  have hacc : accepts env c = remoteOk (env.getRequestByAll c "GET" 5000) := by
    simp [accepts, hrem]
  refine ⟨?_, ?_, ?_⟩
  · intro hcond
    have ha : accepts env c = true := by
      rw [hacc]
      exact (remoteOk_iff _).2 hcond
    rw [resolveLoop_accept env c rest st hc ha]
    simp [fetched, callOf, acceptedEvent, hrem]
  · intro hcond
    apply hrej
    rw [hacc]
    cases hok : remoteOk (env.getRequestByAll c "GET" 5000) with
    | false => rfl
    | true => exact absurd ((remoteOk_iff _).1 hok) hcond
  · intro hshort
    apply hrej
    rw [hacc]
    cases hok : remoteOk (env.getRequestByAll c "GET" 5000) with
    | false => rfl
    | true =>
      have := ((remoteOk_iff _).1 hok).1
      omega

/-- C9 at the candidate `http://conf/short` of `sampleEnv`, whose body is the
ten bytes `port: 8080`: it is rejected although the body contains `port`, and
the next entry, `valid.yaml`, is returned. -/
theorem resolveLoop_remote_witness :
    isCandidate "http://conf/short" = true ∧
    strings.HasPrefix "http://conf/short" "http" = true ∧
    (sampleEnv.getRequestByAll "http://conf/short" "GET" 5000).length < 11 ∧
    listContains (sampleEnv.getRequestByAll "http://conf/short" "GET" 5000)
      (asciiBytes "port") = true ∧
    resolveLoop sampleEnv ["http://conf/short", "valid.yaml"] initialResolution =
      resolveLoop sampleEnv ["valid.yaml"]
        { content := sampleEnv.getRequestByAll "http://conf/short" "GET" 5000,
          filePath := "http://conf/short",
          configErr := some configErrText,
          calls := initialResolution.calls ++ [Call.httpGet "http://conf/short" "GET" 5000],
          log := initialResolution.log ++ [LogEvent.remoteRejected "http://conf/short"] } ∧
    getConfigContent sampleEnv "http://conf/short,valid.yaml"
      = (asciiBytes "port: 8080", "valid.yaml", none) :=
  ⟨by decide, by decide, by decide, by decide,
    (resolveLoop_remote sampleEnv "http://conf/short" ["valid.yaml"] initialResolution
      (by decide)).2.2 (by decide),
    by decide⟩

/-- C10. A candidate that does not start with `http` is read as a local file,
by one call with the candidate as path. If the read succeeds and the content is
non-empty and contains `port`, the loop ends there: the content and the
candidate are returned with a nil error. If not, a non-nil error is recorded
and the loop goes on with the next entry; this is so in particular when the
read succeeded and the content lacks `port`. -/
theorem resolveLoop_local (env : Env) (c : String) (rest : List String) (st : Resolution)
    (hc : isCandidate c = true) (hr : strings.HasPrefix c "http" = false) :
    ((env.ReadFile c).2 = none ∧ (env.ReadFile c).1.length > 0 ∧
        (∃ a b, (env.ReadFile c).1 = a ++ asciiBytes "port" ++ b) →
      resolveLoop env (c :: rest) st =
        { content := (env.ReadFile c).1, filePath := c, configErr := none,
          calls := st.calls ++ [Call.readFile c],
          log := st.log ++ [LogEvent.localAccepted c] }) ∧
    (¬ ((env.ReadFile c).2 = none ∧ (env.ReadFile c).1.length > 0 ∧
        (∃ a b, (env.ReadFile c).1 = a ++ asciiBytes "port" ++ b)) →
      resolveLoop env (c :: rest) st =
        resolveLoop env rest
          { content := (env.ReadFile c).1, filePath := c,
            configErr := some configErrText,
            calls := st.calls ++ [Call.readFile c],
            log := st.log ++ [LogEvent.localRejected c] }) ∧
    ((env.ReadFile c).2 = none →
      (¬ ∃ a b, (env.ReadFile c).1 = a ++ asciiBytes "port" ++ b) →
      resolveLoop env (c :: rest) st =
        resolveLoop env rest
          { content := (env.ReadFile c).1, filePath := c,
            configErr := some configErrText,
            calls := st.calls ++ [Call.readFile c],
            log := st.log ++ [LogEvent.localRejected c] }) := by
  have hrem : isRemote c = false := hr
  have hacc : accepts env c = localOk (env.ReadFile c).1 (env.ReadFile c).2 := by
    simp [accepts, hrem]
  have hrej : ¬ ((env.ReadFile c).2 = none ∧ (env.ReadFile c).1.length > 0 ∧
        (∃ a b, (env.ReadFile c).1 = a ++ asciiBytes "port" ++ b)) →
      resolveLoop env (c :: rest) st =
        resolveLoop env rest
          { content := (env.ReadFile c).1, filePath := c,
            configErr := some configErrText,
            calls := st.calls ++ [Call.readFile c],
            log := st.log ++ [LogEvent.localRejected c] } := by
    intro hcond
    have ha : accepts env c = false := by
      rw [hacc]
      cases hok : localOk (env.ReadFile c).1 (env.ReadFile c).2 with
      | false => rfl
      | true => exact absurd ((localOk_iff _ _).1 hok) hcond
    rw [resolveLoop_reject env c rest st hc ha]
    simp [afterRejected, hc, fetched, callOf, rejectedEvent, hrem]
  refine ⟨?_, hrej, ?_⟩
  · intro hcond
    have ha : accepts env c = true := by
      rw [hacc]
      exact (localOk_iff _ _).2 hcond
    rw [resolveLoop_accept env c rest st hc ha]
    simp [fetched, callOf, acceptedEvent, hrem]
  · intro _ hno
    exact hrej (fun hcond => hno hcond.2.2)

/-- C10 at the candidate `other.txt` of `sampleEnv`, which is read without error
and holds `listen: 8080`: it is rejected with an error, and as the last entry
its content is returned with that error. -/
theorem resolveLoop_local_witness :
    isCandidate "other.txt" = true ∧
    strings.HasPrefix "other.txt" "http" = false ∧
    sampleEnv.ReadFile "other.txt" = (asciiBytes "listen: 8080", none) ∧
    resolveLoop sampleEnv ["other.txt"] initialResolution =
      resolveLoop sampleEnv []
        { content := (sampleEnv.ReadFile "other.txt").1,
          filePath := "other.txt",
          configErr := some configErrText,
          calls := initialResolution.calls ++ [Call.readFile "other.txt"],
          log := initialResolution.log ++ [LogEvent.localRejected "other.txt"] } ∧
    getConfigContent sampleEnv "other.txt"
      = (asciiBytes "listen: 8080", "other.txt", some configErrText) :=
  ⟨by decide, by decide, by decide,
    (resolveLoop_local sampleEnv "other.txt" [] initialResolution
      (by decide) (by decide)).2.2 (by decide)
      (fun h => absurd ((listContains_iff _ _).2 h) (by decide)),
    by decide⟩

/-! ## `isEmpty` -/

/-- A slice is deeply equal to the nil slice only if it is nil. -/
theorem deepEqualSlice_nil {α : Type} (eq : α → α → Bool) (s : Slice α) :
    deepEqualSlice eq s .nil = true ↔ s = .nil := by
  cases s <;> simp [deepEqualSlice]

/-- A limiter pointer is deeply equal to the nil pointer only if it is nil. -/
theorem deepEqualLimiter_none (l : Option Limiter) :
    deepEqualLimiter l none = true ↔ l = none := by
  cases l <;> simp [deepEqualLimiter]

/-- What `isEmpty` tests, field by field. -/
theorem isEmpty_iff_fields (x : ProxyConfig) :
    x.isEmpty = true ↔
      x.Desc = "" ∧ x.Paths = .nil ∧ x.Hosts = .nil ∧
      x.Filter.TimeOut = 0 ∧ x.Filter.LimitHosts = 0 ∧ x.Filter.LimitQps = 0 ∧
      x.Filter.LimitRespHeaders = .nil ∧ x.Filter.Limiter = none := by
  simp only [ProxyConfig.isEmpty, ProxyConfig.deepEqual, ProxyConfigFilter.deepEqual,
    ProxyConfig.zero, Bool.and_eq_true, decide_eq_true_eq, deepEqualSlice_nil,
    deepEqualLimiter_none]
  tauto

/-- C11. For every route `r`, `r.isEmpty()` is true if and only if every field
of `r` holds its zero value: the empty description, the nil slice of paths, the
nil slice of hosts, and the filter with timeout 0, host limit 0, quota 0, the nil
slice of header names and no limiter; that is, if and only if `r` is
`ProxyConfig{}`. (A non-nil slice without elements is not the zero value, and a
route holding one is not empty.) -/
theorem isEmpty_iff_zero_value (r : ProxyConfig) :
    (r.isEmpty = true ↔
      r.Desc = "" ∧ r.Paths = .nil ∧ r.Hosts = .nil ∧
      r.Filter.TimeOut = 0 ∧ r.Filter.LimitHosts = 0 ∧ r.Filter.LimitQps = 0 ∧
      r.Filter.LimitRespHeaders = .nil ∧ r.Filter.Limiter = none) ∧
    (r.isEmpty = true ↔ r = ProxyConfig.zero) ∧
    ProxyConfig.isEmpty { ProxyConfig.zero with Paths := .mk [] } = false := by
  refine ⟨isEmpty_iff_fields r, ?_, by decide⟩
  rw [isEmpty_iff_fields]
  constructor
  · rintro ⟨h1, h2, h3, h4, h5, h6, h7, h8⟩
    cases r with
    | mk desc paths hosts filter =>
      cases filter with
      | mk t lh q hs lim =>
        simp only at h1 h2 h3 h4 h5 h6 h7 h8
        subst h1 h2 h3 h4 h5 h6 h7 h8
        rfl
  · intro h
    subst h
    exact ⟨rfl, rfl, rfl, rfl, rfl, rfl, rfl, rfl⟩

/-- A normalized route is not empty: its header-strip list is not nil. -/
theorem initProxyConfig_not_isEmpty (env : Env) (x : ProxyConfig) :
    (initProxyConfig env x).1.isEmpty = false := by
  cases h : (initProxyConfig env x).1.isEmpty with
  | false => rfl
  | true =>
    have h7 := ((isEmpty_iff_fields _).1 h).2.2.2.2.2.2.1
    simp [initProxyConfig, Slice.append] at h7

/-- C16. After `initConfig` no route of the configuration satisfies `isEmpty()`.
A route parsed with every field at its zero value has the header-strip list
`Content-Encoding` afterwards and is not empty either. -/
theorem initConfig_no_route_isEmpty (env : Env) (configFile : String)
    (cfg0 : ServerProjectConfig) :
    (∀ y ∈ (initConfig env configFile cfg0).1.ProxyConfigs.elems, y.isEmpty = false) ∧
    ProxyConfig.zero.isEmpty = true ∧
    (initProxyConfig env ProxyConfig.zero).1.Filter.LimitRespHeaders
      = .mk ["Content-Encoding"] ∧
    (initProxyConfig env ProxyConfig.zero).1.isEmpty = false := by
  refine ⟨?_, by decide, rfl, initProxyConfig_not_isEmpty env _⟩
  intro y hy
  rw [initConfig_routes] at hy
  obtain ⟨x, _, rfl⟩ := List.mem_map.1 hy
  exact initProxyConfig_not_isEmpty env x

/-- C16 at a configuration parsed with one route, all of whose fields hold
their zero value. -/
theorem initConfig_no_route_isEmpty_witness :
    (initProxyConfig sampleEnv ProxyConfig.zero).1
      ∈ (initConfig (sampleEnvParsing { Port := 0, ProxyConfigs := .mk [ProxyConfig.zero] })
          "valid.yaml" zeroConfig).1.ProxyConfigs.elems ∧
    (initProxyConfig sampleEnv ProxyConfig.zero).1.isEmpty = false :=
  ⟨by decide,
    (initConfig_no_route_isEmpty
      (sampleEnvParsing { Port := 0, ProxyConfigs := .mk [ProxyConfig.zero] })
      "valid.yaml" zeroConfig).1 _ (by decide)⟩

/-! ## Blank entries of the source list -/

/-- A blank entry is no candidate. -/
theorem isCandidate_of_isBlank (b : String) (hb : isBlank b) : isCandidate b = false := by
  have h1 : b.data.dropWhile unicode.IsSpace = [] :=
    List.dropWhile_eq_nil_iff.2 (fun ch hch => hb ch hch)
  have h2 : strings.TrimSpace b = "" := by
    simp [strings.TrimSpace, h1]
  have h3 : len (strings.TrimSpace b) = 0 := (len_eq_zero_iff _).2 h2
  simp [isCandidate, h3]

/-- The loop sees the candidates only. -/
theorem resolveLoop_filter (env : Env) (l : List String) :
    ∀ st : Resolution,
      resolveLoop env l st = resolveLoop env (l.filter isCandidate) st := by
  induction l with
  | nil => intro st; rfl
  | cons c cs ih =>
    intro st
    by_cases hc : isCandidate c = true
    · rw [List.filter_cons_of_pos hc]
      cases ha : accepts env c with
      | true =>
        rw [resolveLoop_accept env c cs st hc ha, resolveLoop_accept env c _ st hc ha]
      | false =>
        rw [resolveLoop_reject env c cs st hc ha, resolveLoop_reject env c _ st hc ha]
        exact ih _
    · have hc0 : isCandidate c = false := by simpa using hc
      rw [List.filter_cons_of_neg hc, resolveLoop_skip env c cs st hc0]
      exact ih st

/-- Inserting blank entries leaves the candidates as they are. -/
theorem BlanksInserted.filter_eq {before after : List String}
    (h : BlanksInserted before after) :
    after.filter isCandidate = before.filter isCandidate := by
  induction h with
  | done => rfl
  | keep x _ ih => simp [List.filter_cons, ih]
  | insert b hb _ ih =>
    have hb0 : isCandidate b = false := isCandidate_of_isBlank b hb
    simp [List.filter_cons, hb0, ih]

/-- Every call of the loop names a candidate. -/
theorem resolveLoop_calls_candidates (env : Env) (l : List String) :
    ∀ st : Resolution, (∀ call ∈ st.calls, isCandidate call.location = true) →
      ∀ call ∈ (resolveLoop env l st).calls, isCandidate call.location = true := by
  induction l with
  | nil => intro st h; exact h
  | cons c cs ih =>
    intro st h
    by_cases hc : isCandidate c = true
    · have hloc : isCandidate (callOf c).location = true := by
        unfold callOf
        split <;> exact hc
      have hnew : ∀ call ∈ st.calls ++ [callOf c], isCandidate call.location = true := by
        intro call hcall
        rcases List.mem_append.1 hcall with h1 | h1
        · exact h call h1
        · rw [List.mem_singleton.1 h1]
          exact hloc
      cases ha : accepts env c with
      | true =>
        rw [resolveLoop_accept env c cs st hc ha]
        exact hnew
      | false =>
        rw [resolveLoop_reject env c cs st hc ha]
        apply ih
        simpa [afterRejected, hc] using hnew
    · have hc0 : isCandidate c = false := by simpa using hc
      rw [resolveLoop_skip env c cs st hc0]
      exact ih st h

/-- C12. Blank entries are skipped: when the entries of `after` are those of
`before` with entries inserted that are empty or consist of white space only, at
any places, `getConfigContent` returns the same content, location and error for
both source lists (it makes the same calls and logs the same events); and no
call of `getConfigContent`, for any source list, fetches or reads a blank entry. -/
theorem getConfigContent_blank_entries (env : Env) (before after : String)
    (h : BlanksInserted (strings.Split before) (strings.Split after)) :
    getConfigContent env after = getConfigContent env before ∧
    getConfigContentRun env after = getConfigContentRun env before ∧
    ∀ b : String, isBlank b →
      ∀ call ∈ (getConfigContentRun env after).calls, call.location ≠ b := by
  have hrun : getConfigContentRun env after = getConfigContentRun env before := by
    unfold getConfigContentRun
    rw [resolveLoop_filter env (strings.Split after), h.filter_eq,
      ← resolveLoop_filter env (strings.Split before)]
  refine ⟨by simp [getConfigContent, hrun], hrun, ?_⟩
  intro b hb call hcall hloc
  have hcand : isCandidate call.location = true :=
    resolveLoop_calls_candidates env _ initialResolution
      (by intro c hc; simp [initialResolution] at hc) call hcall
  rw [hloc, isCandidate_of_isBlank b hb] at hcand
  cases hcand

/-- C12 at the source list `nonexistent.yaml,valid.yaml` of `sampleEnv`, with an
empty entry put in front, an entry of one blank in the middle and an entry of
one tab at the end. -/
theorem getConfigContent_blank_entries_witness :
    strings.Split "nonexistent.yaml,valid.yaml" = ["nonexistent.yaml", "valid.yaml"] ∧
    strings.Split ",nonexistent.yaml, ,valid.yaml,\t"
      = ["", "nonexistent.yaml", " ", "valid.yaml", "\t"] ∧
    getConfigContent sampleEnv ",nonexistent.yaml, ,valid.yaml,\t"
      = getConfigContent sampleEnv "nonexistent.yaml,valid.yaml" ∧
    getConfigContent sampleEnv "nonexistent.yaml,valid.yaml"
      = (asciiBytes "port: 8080", "valid.yaml", none) :=
  ⟨by decide, by decide,
    (getConfigContent_blank_entries sampleEnv "nonexistent.yaml,valid.yaml"
      ",nonexistent.yaml, ,valid.yaml,\t"
      (show BlanksInserted ["nonexistent.yaml", "valid.yaml"]
          ["", "nonexistent.yaml", " ", "valid.yaml", "\t"] from
        .insert "" (by decide) (.keep "nonexistent.yaml"
          (.insert " " (by decide) (.keep "valid.yaml"
            (.insert "\t" (by decide) .done)))))).1,
    by decide⟩

/-! ## The host comparator -/

/-- The value of `Less` at two valid indices. -/
theorem Less_of_getElem (s : ProxyHostConfigs) (i j : Nat) (a b : ProxyHostConfig)
    (ha : s.elems[i]? = some a) (hb : s.elems[j]? = some b) :
    ProxyHostConfigs.Less s i j = some (decide (a.Weight > b.Weight)) := by
  simp [ProxyHostConfigs.Less, ha, hb]

/-- `Less` holds only at valid indices, of a heavier and a lighter host. -/
theorem Less_eq_true_iff (s : ProxyHostConfigs) (i j : Nat) :
    ProxyHostConfigs.Less s i j = some true ↔
      ∃ a b, s.elems[i]? = some a ∧ s.elems[j]? = some b ∧ a.Weight > b.Weight := by
  unfold ProxyHostConfigs.Less
  cases ha : s.elems[i]? with
  | none => simp
  | some a =>
    cases hb : s.elems[j]? with
    | none => simp
    | some b => simp

/-- C14. `Less(i, j)` holds if and only if `s[i].Weight > s[j].Weight`, for all
valid indices. Hence `Less` is irreflexive, asymmetric and transitive, two hosts
of equal weight are ordered in neither direction, and a sequence in which no
later element is `Less` than an earlier one has non-increasing weights. -/
theorem Less_weight_descending (s : ProxyHostConfigs) :
    (∀ i j a b, s.elems[i]? = some a → s.elems[j]? = some b →
      (ProxyHostConfigs.Less s i j = some true ↔ a.Weight > b.Weight) ∧
      (ProxyHostConfigs.Less s i j = some false ↔ ¬ a.Weight > b.Weight)) ∧
    (∀ i, i < ProxyHostConfigs.Len s → ProxyHostConfigs.Less s i i = some false) ∧
    (∀ i j, ProxyHostConfigs.Less s i j = some true →
      ProxyHostConfigs.Less s j i = some false) ∧
    (∀ i j k, ProxyHostConfigs.Less s i j = some true →
      ProxyHostConfigs.Less s j k = some true → ProxyHostConfigs.Less s i k = some true) ∧
    (∀ i j a b, s.elems[i]? = some a → s.elems[j]? = some b → a.Weight = b.Weight →
      ProxyHostConfigs.Less s i j = some false ∧ ProxyHostConfigs.Less s j i = some false) ∧
    ((∀ i j, i < j → j < ProxyHostConfigs.Len s →
        ProxyHostConfigs.Less s j i ≠ some true) →
      weightsDescending s.elems) := by
  refine ⟨?_, ?_, ?_, ?_, ?_, ?_⟩
  · intro i j a b ha hb
    rw [Less_of_getElem s i j a b ha hb]
    simp
  · intro i hi
    have hi1 : i < s.elems.length := hi
    rw [Less_of_getElem s i i _ _ (List.getElem?_eq_getElem hi1)
      (List.getElem?_eq_getElem hi1)]
    simp
  · intro i j h
    obtain ⟨a, b, ha, hb, hab⟩ := (Less_eq_true_iff s i j).1 h
    rw [Less_of_getElem s j i b a hb ha]
    have : ¬ b.Weight > a.Weight := by omega
    simp [this]
  · intro i j k hij hjk
    obtain ⟨a, b, ha, hb, hab⟩ := (Less_eq_true_iff s i j).1 hij
    obtain ⟨b1, c, hb1, hc, hbc⟩ := (Less_eq_true_iff s j k).1 hjk
    have hbb : b = b1 := by
      rw [hb] at hb1
      exact Option.some.inj hb1
    subst hbb
    exact (Less_eq_true_iff s i k).2 ⟨a, c, ha, hc, by omega⟩
  · intro i j a b ha hb hab
    rw [Less_of_getElem s i j a b ha hb, Less_of_getElem s j i b a hb ha]
    simp [hab]
  · intro h
    unfold weightsDescending
    rw [List.pairwise_iff_getElem]
    intro i j hi hj hij
    have hno := h i j hij hj
    rw [Less_of_getElem s j i _ _ (List.getElem?_eq_getElem hj)
      (List.getElem?_eq_getElem hi)] at hno
    have hle : ¬ (s.elems[j]).Weight > (s.elems[i]).Weight := by
      simpa using hno
    omega

/-- C14 at the hosts with the weights 5, 3, 3: the second and the third are
ordered in neither direction, and no later host is `Less` than an earlier one. -/
theorem Less_weight_descending_witness :
    ProxyHostConfigs.Less (.mk [⟨"a", 5⟩, ⟨"b", 3⟩, ⟨"c", 3⟩]) 0 1 = some true ∧
    ProxyHostConfigs.Less (.mk [⟨"a", 5⟩, ⟨"b", 3⟩, ⟨"c", 3⟩]) 1 0 = some false ∧
    ProxyHostConfigs.Less (.mk [⟨"a", 5⟩, ⟨"b", 3⟩, ⟨"c", 3⟩]) 1 2 = some false ∧
    ProxyHostConfigs.Less (.mk [⟨"a", 5⟩, ⟨"b", 3⟩, ⟨"c", 3⟩]) 2 1 = some false ∧
    ProxyHostConfigs.Less (.mk [⟨"a", 5⟩, ⟨"b", 3⟩, ⟨"c", 3⟩]) 0 3 = none ∧
    weightsDescending (Slice.elems (.mk [⟨"a", 5⟩, ⟨"b", 3⟩, ⟨"c", 3⟩])) :=
  ⟨by decide, by decide, by decide, by decide, by decide,
    (Less_weight_descending (.mk [⟨"a", 5⟩, ⟨"b", 3⟩, ⟨"c", 3⟩])).2.2.2.2.2
      (by
        intro i j hij hj
        have hj3 : j < 3 := hj
        have hcases : (i = 0 ∧ j = 1) ∨ (i = 0 ∧ j = 2) ∨ (i = 1 ∧ j = 2) := by omega
        rcases hcases with ⟨rfl, rfl⟩ | ⟨rfl, rfl⟩ | ⟨rfl, rfl⟩ <;> decide)⟩

/-! ## What `initConfig` leaves as it is -/

/-- The port is not touched by the normalization. -/
theorem initParsed_port (env : Env) (cfg : ServerProjectConfig) :
    (initParsed env cfg).1.Port = cfg.Port := rfl

/-- What one round of the loop over the paths leaves as it is. -/
theorem initPath_frame (env : Env) (desc : String) (p : ProxyPathConfig) :
    (initPath env desc p).1.Path = p.Path ∧ (initPath env desc p).1.Remove = p.Remove :=
  ⟨rfl, rfl⟩

/-- What one round of the loop over the routes leaves as it is. -/
theorem initProxyConfig_frame (env : Env) (x : ProxyConfig) :
    (initProxyConfig env x).1.Desc = x.Desc ∧
    (initProxyConfig env x).1.Hosts = x.Hosts ∧
    List.Forall₂ (fun p q => q.Path = p.Path ∧ q.Remove = p.Remove)
      x.Paths.elems (initProxyConfig env x).1.Paths.elems ∧
    (initProxyConfig env x).1.Filter.TimeOut = x.Filter.TimeOut ∧
    (initProxyConfig env x).1.Filter.LimitHosts = x.Filter.LimitHosts ∧
    (initProxyConfig env x).1.Filter.LimitQps = x.Filter.LimitQps := by
  refine ⟨rfl, rfl, ?_, rfl, rfl, rfl⟩
  rw [initProxyConfig_paths, List.forall₂_map_right_iff]
  apply List.forall₂_same.2
  intro p _
  exact initPath_frame env x.Desc p

/-- C15. The loop of `initConfig` changes the match types of the paths, the
header-strip list and the limiter, and nothing else: the port, the number and
the order of the routes, and for every route its description, its host sequence,
the number and the order of its path rules with their path and remove strings,
and the filter's timeOut, limitHosts and limitQps are after `initConfig` what
they were in the parsed configuration. -/
theorem initConfig_frame (env : Env) (configFile : String) (cfg0 : ServerProjectConfig) :
    (initConfig env configFile cfg0).1.Port = (parsedConfig env configFile cfg0).Port ∧
    (initConfig env configFile cfg0).1.ProxyConfigs.elems.length
      = (parsedConfig env configFile cfg0).ProxyConfigs.elems.length ∧
    List.Forall₂
      (fun x y =>
        y.Desc = x.Desc ∧ y.Hosts = x.Hosts ∧
        List.Forall₂ (fun p q => q.Path = p.Path ∧ q.Remove = p.Remove)
          x.Paths.elems y.Paths.elems ∧
        y.Filter.TimeOut = x.Filter.TimeOut ∧
        y.Filter.LimitHosts = x.Filter.LimitHosts ∧
        y.Filter.LimitQps = x.Filter.LimitQps)
      (parsedConfig env configFile cfg0).ProxyConfigs.elems
      (initConfig env configFile cfg0).1.ProxyConfigs.elems := by
  refine ⟨?_, ?_, ?_⟩
  · rw [initConfig_fst, initParsed_port]
  · rw [initConfig_routes, List.length_map]
  · rw [initConfig_routes, List.forall₂_map_right_iff]
    apply List.forall₂_same.2
    intro x _
    exact initProxyConfig_frame env x

/-! ## The normalized match type -/

/-- The code points of a trimmed string. -/
theorem TrimSpace_data (s : String) :
    (strings.TrimSpace s).data
      = List.rdropWhile unicode.IsSpace (s.data.dropWhile unicode.IsSpace) := rfl

/-- What `strings.TrimSpace` yields has no white space at either end. -/
theorem isTrimmed_TrimSpace (s : String) : isTrimmed (strings.TrimSpace s) := by
  constructor
  · intro ch hch
    rw [TrimSpace_data] at hch
    obtain ⟨r, hr⟩ := List.rdropWhile_prefix unicode.IsSpace
      (s.data.dropWhile unicode.IsSpace)
    have hhead : (s.data.dropWhile unicode.IsSpace).head? = some ch := by
      rw [← hr]
      cases ht : List.rdropWhile unicode.IsSpace (s.data.dropWhile unicode.IsSpace) with
      | nil => rw [ht] at hch; cases hch
      | cons x xs =>
        rw [ht] at hch
        simpa using hch
    have := List.head?_dropWhile_not unicode.IsSpace s.data
    rw [hhead] at this
    exact this
  · intro ch hch
    rw [TrimSpace_data] at hch
    have hne : List.rdropWhile unicode.IsSpace (s.data.dropWhile unicode.IsSpace) ≠ [] := by
      intro h
      rw [h] at hch
      cases hch
    have hlast := List.rdropWhile_last_not unicode.IsSpace _ hne
    rw [List.getLast?_eq_getLast _ hne] at hch
    rw [← Option.some.inj hch]
    simpa using hlast

/-- A string without white space at either end is left as it is by `strings.TrimSpace`. -/
theorem TrimSpace_of_isTrimmed (m : String) (h : isTrimmed m) : strings.TrimSpace m = m := by
  have h1 : m.data.dropWhile unicode.IsSpace = m.data := by
    cases hd : m.data with
    | nil => rfl
    | cons x xs =>
      have := h.1 x (by rw [hd]; rfl)
      exact List.dropWhile_cons_of_neg (by simp [this])
  have h2 : List.rdropWhile unicode.IsSpace m.data = m.data := by
    rw [List.rdropWhile_eq_self_iff]
    intro hl
    have := h.2 _ (List.getLast?_eq_getLast _ hl)
    simp [this]
  have hdata : (strings.TrimSpace m).data = m.data := by
    rw [TrimSpace_data, h1, h2]
  cases m with
  | mk data =>
    cases hm : strings.TrimSpace (String.mk data) with
    | mk d2 =>
      rw [hm] at hdata
      simp at hdata
      rw [hdata]

/-- Trimming adds no code point. -/
theorem mem_TrimSpace (s : String) (ch : Char) (h : ch ∈ (strings.TrimSpace s).data) :
    ch ∈ s.data := by
  rw [TrimSpace_data] at h
  exact List.dropWhile_subset _ ((List.rdropWhile_prefix _ _).subset h)

/-- A string of code points that `unicode.ToLower` keeps is kept by `strings.ToLower`. -/
theorem ToLower_of_fixed (tbl : Char → Char) (m : String)
    (h : ∀ ch ∈ m.data, unicode.ToLower tbl ch = ch) : strings.ToLower tbl m = m := by
  cases m with
  | mk data =>
    have : data.map (unicode.ToLower tbl) = data := by
      conv_rhs => rw [← List.map_id data]
      exact List.map_congr_left h
    simp [strings.ToLower, this]

/-- The normalized match type is not empty and trimmed, whatever the case table. -/
theorem specMatchType_trimmed (tbl : Char → Char) (m : String) :
    specMatchType tbl m ≠ "" ∧
    isTrimmed (specMatchType tbl m) ∧
    strings.TrimSpace (specMatchType tbl m) = specMatchType tbl m := by
  by_cases h : strings.TrimSpace (strings.ToLower tbl m) = ""
  · have hs : specMatchType tbl m = "exact" := by simp [specMatchType, h]
    rw [hs]
    have hex : strings.TrimSpace "exact" = "exact" := by decide
    have htrim : isTrimmed "exact" := by
      have := isTrimmed_TrimSpace "exact"
      rwa [hex] at this
    exact ⟨by decide, htrim, rfl⟩
  · have hs : specMatchType tbl m = strings.TrimSpace (strings.ToLower tbl m) := by
      simp [specMatchType, h]
    rw [hs]
    have htr := isTrimmed_TrimSpace (strings.ToLower tbl m)
    exact ⟨h, htr, TrimSpace_of_isTrimmed _ htr⟩

/-- With an idempotent `unicode.ToLower` the normalized match type is lower-cased
and is its own normalization. -/
theorem specMatchType_normal (tbl : Char → Char) (hidem : lowerIdempotent tbl) (m : String) :
    strings.ToLower tbl (specMatchType tbl m) = specMatchType tbl m ∧
    specMatchType tbl (specMatchType tbl m) = specMatchType tbl m := by
  by_cases h : strings.TrimSpace (strings.ToLower tbl m) = ""
  · have hs : specMatchType tbl m = "exact" := by simp [specMatchType, h]
    rw [hs]
    exact ⟨rfl, rfl⟩
  · have hs : specMatchType tbl m = strings.TrimSpace (strings.ToLower tbl m) := by
      simp [specMatchType, h]
    rw [hs]
    have hlow : strings.ToLower tbl (strings.TrimSpace (strings.ToLower tbl m))
        = strings.TrimSpace (strings.ToLower tbl m) := by
      apply ToLower_of_fixed
      intro ch hch
      have hmem := mem_TrimSpace _ ch hch
      obtain ⟨r, _, rfl⟩ := List.mem_map.1 hmem
      exact hidem r
    have htt := TrimSpace_of_isTrimmed _ (isTrimmed_TrimSpace (strings.ToLower tbl m))
    refine ⟨hlow, ?_⟩
    simp [specMatchType, hlow, htt, h]

/-- A round of the loop over the paths changes nothing but the match type. -/
theorem initPath_eq_of_matchType (env : Env) (desc : String) (p : ProxyPathConfig)
    (h : specMatchType env.lowerTable p.MatchType = p.MatchType) :
    (initPath env desc p).1 = p := by
  have hm := initPath_matchType env desc p
  rw [h] at hm
  have hshape : (initPath env desc p).1
      = { p with MatchType := (initPath env desc p).1.MatchType } := rfl
  rw [hshape, hm]

/-- The case table that maps every code point to itself gives an idempotent
`unicode.ToLower`. -/
theorem lowerIdempotent_id : lowerIdempotent (fun r => r) := by
  intro r
  by_cases h : r.toNat ≤ 0x7F
  · have hall : ∀ n, n < 128 →
        unicode.ToLower (fun r => r) (unicode.ToLower (fun r => r) (Char.ofNat n))
          = unicode.ToLower (fun r => r) (Char.ofNat n) := by
      decide
    have := hall r.toNat (by omega)
    rwa [Char.ofNat_toNat] at this
  · simp [unicode.ToLower, h]

/-- C13. After `initConfig` the match type of every path rule of every route is
not empty and trimmed (no white space at its start or at its end,
`strings.TrimSpace` leaves it as it is); and, `unicode.ToLower` being idempotent
as the lower-case mapping of Unicode is, it is equal to its own lower-casing and
a second round of the normalization leaves the path rule unchanged. -/
theorem initConfig_matchType_normal (env : Env) (configFile : String)
    (cfg0 : ServerProjectConfig) :
    ∀ y ∈ (initConfig env configFile cfg0).1.ProxyConfigs.elems,
      ∀ p ∈ y.Paths.elems,
        p.MatchType ≠ "" ∧
        isTrimmed p.MatchType ∧
        strings.TrimSpace p.MatchType = p.MatchType ∧
        (lowerIdempotent env.lowerTable →
          strings.ToLower env.lowerTable p.MatchType = p.MatchType ∧
          (initPath env y.Desc p).1 = p) := by
  intro y hy p hp
  rw [initConfig_routes] at hy
  obtain ⟨x, _, rfl⟩ := List.mem_map.1 hy
  rw [initProxyConfig_paths] at hp
  obtain ⟨p0, _, rfl⟩ := List.mem_map.1 hp
  have hm := initPath_matchType env x.Desc p0
  obtain ⟨h1, h2, h3⟩ := specMatchType_trimmed env.lowerTable p0.MatchType
  rw [← hm] at h1 h2 h3
  refine ⟨h1, h2, h3, ?_⟩
  intro hidem
  obtain ⟨h4, h5⟩ := specMatchType_normal env.lowerTable hidem p0.MatchType
  rw [← hm] at h4 h5
  exact ⟨h4, initPath_eq_of_matchType env _ _ h5⟩

/-- C13 at the route `sampleRoute`, whose path rule is parsed with the match
type `  PREFIX  ` and stored with the match type `prefix`. -/
theorem initConfig_matchType_normal_witness :
    lowerIdempotent (sampleEnvParsing (sampleConfig 10 [1, 5, 3])).lowerTable ∧
    (initProxyConfig sampleEnv (sampleRoute 10 [1, 5, 3])).1
      ∈ (initConfig (sampleEnvParsing (sampleConfig 10 [1, 5, 3])) "valid.yaml"
          zeroConfig).1.ProxyConfigs.elems ∧
    ({ Path := "/api", MatchType := "prefix", Remove := "" } : ProxyPathConfig)
      ∈ (initProxyConfig sampleEnv (sampleRoute 10 [1, 5, 3])).1.Paths.elems ∧
    isTrimmed "prefix" ∧
    strings.TrimSpace "prefix" = "prefix" ∧
    strings.ToLower (fun r => r) "prefix" = "prefix" ∧
    (initPath (sampleEnvParsing (sampleConfig 10 [1, 5, 3])) "api"
        { Path := "/api", MatchType := "prefix", Remove := "" }).1
      = { Path := "/api", MatchType := "prefix", Remove := "" } :=
  have h := initConfig_matchType_normal (sampleEnvParsing (sampleConfig 10 [1, 5, 3]))
    "valid.yaml" zeroConfig
    (initProxyConfig sampleEnv (sampleRoute 10 [1, 5, 3])).1 (by decide)
    { Path := "/api", MatchType := "prefix", Remove := "" } (by decide)
  ⟨lowerIdempotent_id, by decide, by decide, h.2.1, h.2.2.1,
    (h.2.2.2 lowerIdempotent_id).1, (h.2.2.2 lowerIdempotent_id).2⟩

end ApiMirror
